import Mathlib

/-!
Shallow embedding of the workout-log parsing engine of
`openclaw-workout-logger` (files `workout_logger/parser.py`,
`workout_logger/exercises.py`, `workout_logger/models.py`), together with
theorems settling the specification claims about it.

Python strings are modelled as `String`/`List Char` (ASCII fragment, which
covers every character class the parser distinguishes); Python `float`
values, which the parser only ever produces by parsing decimal literals and
stores without arithmetic, are modelled exactly as `Rat`; Python `int` as
`Int`/`Nat`; raised `ValueError`s as `Except String`.  A timezone-aware
reference instant is modelled by its civil components after conversion to
the fixed zone America/Los_Angeles, plus the daylight-saving flag that
determines the numeric UTC offset (-07:00 under PDT, -08:00 under PST);
the zoneinfo conversion itself is Python-library behaviour outside the
repository.
-/

namespace WL

/-- ASCII whitespace as recognised by Python `str.strip`/`str.split`/`\s`
(space, tab, newline, carriage return, vertical tab, form feed). -/
def isPySpace (c : Char) : Bool :=
  c.toNat = 32 || c.toNat = 9 || c.toNat = 10 || c.toNat = 13 || c.toNat = 11 || c.toNat = 12

/-- ASCII decimal digit (regex `\d` on the ASCII fragment). -/
def isDig (c : Char) : Bool := 48 ≤ c.toNat && c.toNat ≤ 57

/-- ASCII lower-casing, as `str.lower` acts on the ASCII range. -/
def pyToLower (c : Char) : Char :=
  if 65 ≤ c.toNat && c.toNat ≤ 90 then Char.ofNat (c.toNat + 32) else c

def pyLowerL (l : List Char) : List Char := l.map pyToLower

/-- Python `str.strip()` (no argument): drop whitespace at both ends. -/
def stripL (l : List Char) : List Char :=
  ((l.dropWhile isPySpace).reverse.dropWhile isPySpace).reverse

def pyStrip (s : String) : String := ⟨stripL s.data⟩

def pyLower (s : String) : String := ⟨pyLowerL s.data⟩

/-- Helper for `str.split()` with no argument: split on whitespace runs,
discarding empty pieces. -/
def wordsAux : List Char → List Char → List (List Char)
  | [], acc => if acc.isEmpty then [] else [acc.reverse]
  | c :: r, acc =>
    if isPySpace c then
      if acc.isEmpty then wordsAux r [] else acc.reverse :: wordsAux r []
    else wordsAux r (c :: acc)

def splitWsL (l : List Char) : List (List Char) := wordsAux l []

/-- Python `str.split(',')`: split at every comma, keeping empty pieces
(`"".split(',') == ['']`). -/
def splitCommaL : List Char → List (List Char)
  | [] => [[]]
  | ',' :: r => [] :: splitCommaL r
  | c :: r =>
    match splitCommaL r with
    | p :: ps => (c :: p) :: ps
    | [] => [[c]]

/-- Python `' '.join(...)`. -/
def joinSpaceL : List (List Char) → List Char
  | [] => []
  | [w] => w
  | w :: ws => w ++ ' ' :: joinSpaceL ws

/-- Prefix test, structurally recursive on the pattern. -/
def isPrefixL : List Char → List Char → Bool
  | [], _ => true
  | a :: ps, l =>
    match l with
    | [] => false
    | c :: cs => (a == c) && isPrefixL ps cs

/-- Python substring containment `pat in s`. -/
def containsSubL (pat : List Char) : List Char → Bool
  | [] => pat.isEmpty
  | c :: r => isPrefixL pat (c :: r) || containsSubL pat r

def digitVal (c : Char) : Nat := c.toNat - 48

def natValL (l : List Char) : Nat := l.foldl (fun a c => a * 10 + digitVal c) 0

/-- Exact value of a decimal literal `ip.fp` (Python `float` on the strings
this parser passes to it; no rounding is modelled because the record only
stores the parsed value). -/
def decRat (ip fp : List Char) : Rat :=
  mkRat (natValL ip * 10 ^ fp.length + natValL fp) (10 ^ fp.length)

def digitChar (n : Nat) : Char := Char.ofNat (48 + n)

/-- Fuel-driven decimal printing of a natural number (the fuel `n + 1`
always suffices). -/
def reprGo : Nat → Nat → List Char
  | 0, _ => []
  | f + 1, n => if n < 10 then [digitChar n] else reprGo f (n / 10) ++ [digitChar (n % 10)]

def natReprL (n : Nat) : List Char := reprGo (n + 1) n

/-- Python `f"{n:0wd}"` zero padding (pads, never truncates). -/
def padL (w n : Nat) : List Char :=
  List.replicate (w - (natReprL n).length) '0' ++ natReprL n

def pad2 (n : Nat) : String := ⟨padL 2 n⟩

def pad4 (n : Nat) : String := ⟨padL 4 n⟩

/-- Digits with single underscores allowed between digits, as accepted by
Python `int`. -/
def digUGo : List Char → Nat → Option Nat
  | [], acc => some acc
  | '_' :: c :: r, acc => if isDig c then digUGo r (acc * 10 + digitVal c) else none
  | ['_'], _ => none
  | c :: r, acc => if isDig c then digUGo r (acc * 10 + digitVal c) else none

def digitsUnd : List Char → Option Nat
  | [] => none
  | c :: r => if isDig c then digUGo r (digitVal c) else none

/-- Python `int(s)` on the ASCII fragment: optional surrounding whitespace,
optional sign, digits with optional single underscores between them. -/
def pyIntL (l : List Char) : Option Int :=
  match stripL l with
  | '+' :: r => (digitsUnd r).map (fun n => (n : Int))
  | '-' :: r => (digitsUnd r).map (fun n => -(n : Int))
  | r => (digitsUnd r).map (fun n => (n : Int))

def allDigits (l : List Char) : Bool := !l.isEmpty && l.all isDig

/-- Greedy match of `\d+(?:\.\d+)?` at the head of the input; returns the
parsed value and the unconsumed remainder.  Equivalent to the regex because
a digit run cannot extend past a non-digit and the fractional group is
atomic. -/
def numAt (l : List Char) : Option (Rat × List Char) :=
  let ds := l.takeWhile isDig
  if ds.isEmpty then none
  else
    match l.dropWhile isDig with
    | '.' :: r2 =>
      let fs := r2.takeWhile isDig
      if fs.isEmpty then some (decRat ds [], '.' :: r2)
      else some (decRat ds fs, r2.dropWhile isDig)
    | r => some (decRat ds [], r)

/-- `re.match(r'^\d+(?:\.\d+)?$', ...)`, returning the value. -/
def numFull (l : List Char) : Option Rat :=
  match numAt l with
  | some (v, []) => some v
  | _ => none

def isX (c : Char) : Bool := c = 'x' || c = 'X'

/-- `re.match(r'^(\d+(?:\.\d+)?)x(\d+)$', ..., IGNORECASE)`. -/
def matchNxM (l : List Char) : Option (Rat × Nat) :=
  match numAt l with
  | some (v, c :: r) => if isX c && allDigits r then some (v, natValL r) else none
  | _ => none

/-- `re.match(r'^(\d+(?:\.\d+)?)x(\d+)x(\d+)$', ..., IGNORECASE)`. -/
def matchNxMxP (l : List Char) : Option (Rat × Nat × Nat) :=
  match numAt l with
  | some (v, c :: r) =>
    if isX c then
      let ds := r.takeWhile isDig
      match r.dropWhile isDig with
      | c2 :: r2 =>
        if !ds.isEmpty && isX c2 && allDigits r2 then some (v, natValL ds, natValL r2)
        else none
      | [] => none
    else none
  | _ => none

/-- `re.match(r'^2x(\d+)$', ..., IGNORECASE)`. -/
def match2xN (l : List Char) : Option Rat :=
  match l with
  | '2' :: c :: r => if isX c && allDigits r then some (mkRat (natValL r) 1) else none
  | _ => none

/-- `re.match(r'^(\d+)x([\d,]+)$', ..., IGNORECASE)`. -/
def matchCountReps (l : List Char) : Option (Nat × List Char) :=
  let ds := l.takeWhile isDig
  if ds.isEmpty then none
  else
    match l.dropWhile isDig with
    | c :: r =>
      if isX c && !r.isEmpty && r.all (fun d => isDig d || d = ',') then
        some (natValL ds, r)
      else none
    | [] => none

/-- `re.match(r'^(\d+)x(\d+)$', ..., IGNORECASE)`. -/
def matchIntxInt (l : List Char) : Option (Nat × Nat) :=
  let ds := l.takeWhile isDig
  if ds.isEmpty then none
  else
    match l.dropWhile isDig with
    | c :: r => if isX c && allDigits r then some (natValL ds, natValL r) else none
    | [] => none

/-- `re.match(r'^x?(\d+)$', ..., IGNORECASE)`. -/
def matchXoptN (l : List Char) : Option Nat :=
  match l with
  | c :: r =>
    if isX c then (if allDigits r then some (natValL r) else none)
    else if allDigits (c :: r) then some (natValL (c :: r)) else none
  | [] => none

def isRepChar (c : Char) : Bool :=
  isDig c || c = ',' || c = 'x' || c = 'f' || c = 'X' || c = 'F'

/-- `re.match(r'^[\d,xfXF]+$', ...)`. -/
def repCharsOk (l : List Char) : Bool := !l.isEmpty && l.all isRepChar

/-- `re.match(r'^(\d{4})-(\d{2})-(\d{2})$', ...)`, returning the three
literal digit groups. -/
def isoFull (l : List Char) : Option (String × String × String) :=
  match l with
  | [y1, y2, y3, y4, '-', m1, m2, '-', d1, d2] =>
    if isDig y1 && isDig y2 && isDig y3 && isDig y4 &&
       isDig m1 && isDig m2 && isDig d1 && isDig d2 then
      some (⟨[y1, y2, y3, y4]⟩, ⟨[m1, m2]⟩, ⟨[d1, d2]⟩)
    else none
  | _ => none

/-- Unanchored prefix match of `\d{4}-\d{2}-\d{2}`, returning the
remainder. -/
def isoLead : List Char → Option (List Char)
  | y1 :: y2 :: y3 :: y4 :: '-' :: m1 :: m2 :: '-' :: d1 :: d2 :: r =>
    if isDig y1 && isDig y2 && isDig y3 && isDig y4 &&
       isDig m1 && isDig m2 && isDig d1 && isDig d2 then some r
    else none
  | _ => none

/-- Case-insensitive literal match (`pat` given in lower case); returns the
remainder. -/
def litCI : List Char → List Char → Option (List Char)
  | [], l => some l
  | _ :: _, [] => none
  | p :: ps, c :: cs => if pyToLower c = p then litCI ps cs else none

/-- Optional case-insensitive literal (regex `(?:pat)?`). -/
def optLitCI (pat l : List Char) : List Char := (litCI pat l).getD l

/-- `(\d+(?:\.\d+)?)\s*min(?:ute)?s?` at the head of the input. -/
def durAt (l : List Char) : Option (Rat × List Char) :=
  match numAt l with
  | some vr =>
    match litCI ['m', 'i', 'n'] (vr.2.dropWhile isPySpace) with
    | some r3 => some (vr.1, optLitCI ['s'] (optLitCI ['u', 't', 'e'] r3))
    | none => none
  | none => none

/-- `(\d+(?:\.\d+)?)\s*mph` at the head of the input. -/
def mphAt (l : List Char) : Option (Rat × List Char) :=
  match numAt l with
  | some vr =>
    match litCI ['m', 'p', 'h'] (vr.2.dropWhile isPySpace) with
    | some r3 => some (vr.1, r3)
    | none => none
  | none => none

/-- `(\d+(?:\.\d+)?)\s*degree\s*incline` at the head of the input. -/
def inclineDegAt (l : List Char) : Option (Rat × List Char) :=
  match numAt l with
  | some vr =>
    match litCI ['d', 'e', 'g', 'r', 'e', 'e'] (vr.2.dropWhile isPySpace) with
    | some r2 =>
      match litCI ['i', 'n', 'c', 'l', 'i', 'n', 'e'] (r2.dropWhile isPySpace) with
      | some r3 => some (vr.1, r3)
      | none => none
    | none => none
  | none => none

/-- `incline\s*(\d+(?:\.\d+)?)` at the head of the input. -/
def inclineNumAt (l : List Char) : Option (Rat × List Char) :=
  match litCI ['i', 'n', 'c', 'l', 'i', 'n', 'e'] l with
  | some r1 => numAt (r1.dropWhile isPySpace)
  | none => none

/-- The incline alternation: the `degree incline` branch is tried first at
each position, as in the source pattern. -/
def inclineAt (l : List Char) : Option (Rat × List Char) :=
  match inclineDegAt l with
  | some r => some r
  | none => inclineNumAt l

/-- `(\d+(?:\.\d+)?)\s*miles?` at the head of the input. -/
def milesAt (l : List Char) : Option (Rat × List Char) :=
  match numAt l with
  | some vr =>
    match litCI ['m', 'i', 'l', 'e'] (vr.2.dropWhile isPySpace) with
    | some r3 => some (vr.1, optLitCI ['s'] r3)
    | none => none
  | none => none

/-- `rpe(\d+)` at the head of the input. -/
def rpeAt (l : List Char) : Option (Nat × List Char) :=
  match litCI ['r', 'p', 'e'] l with
  | some r1 =>
    let ds := r1.takeWhile isDig
    if ds.isEmpty then none else some (natValL ds, r1.dropWhile isDig)
  | none => none

/-- `[,\s]+` at the head of the input. -/
def commaSpAt (l : List Char) : Option (Unit × List Char) :=
  if (l.takeWhile (fun c => c = ',' || isPySpace c)).isEmpty then none
  else some ((), l.dropWhile (fun c => c = ',' || isPySpace c))

/-- `re.search`: try the pattern at each position left to right and return
the first capture. -/
def searchV {α : Type} (m : List Char → Option (α × List Char)) : List Char → Option α
  | [] => (m []).map (fun p => p.1)
  | c :: r =>
    match m (c :: r) with
    | some p => some p.1
    | none => searchV m r

/-- `re.sub` scan with fuel (the initial fuel `l.length` suffices for every
matcher used here, all of which consume at least one character). -/
def subGo {α : Type} (m : List Char → Option (α × List Char)) (rep : List Char) :
    Nat → List Char → List Char
  | f, l =>
    match l with
    | [] => []
    | c :: r =>
      match f with
      | 0 => c :: r
      | f + 1 =>
        match m (c :: r) with
        | some p => rep ++ subGo m rep f p.2
        | none => c :: subGo m rep f r

/-- `re.sub(pattern, rep, l)`: replace every non-overlapping leftmost
match. -/
def subAll {α : Type} (m : List Char → Option (α × List Char)) (rep : List Char)
    (l : List Char) : List Char :=
  subGo m rep l.length l

/-- The alias table of `exercises.py` (`EXERCISE_MAP`), verbatim. -/
def EXERCISE_MAP : List (String × String) :=
  [("squat", "squat"), ("sq", "squat"),
   ("bench", "bench_press"), ("bench press", "bench_press"), ("bp", "bench_press"),
   ("deadlift", "deadlift"), ("dl", "deadlift"),
   ("ohp", "ohp"), ("overhead press", "ohp"), ("op", "ohp"), ("press", "ohp"),
   ("row", "barbell_row"), ("rows", "barbell_row"), ("barbell row", "barbell_row"),
   ("bent over row", "barbell_row"),
   ("incline row", "incline_row"),
   ("weighted dip", "weighted_dip"), ("dip", "dip"),
   ("chin up", "chin_up"), ("chin-up", "chin_up"), ("chinup", "chin_up"),
   ("weighted chin up", "weighted_chin_up"),
   ("pull up", "pull_up"), ("pull-up", "pull_up"), ("pullup", "pull_up"),
   ("weighted pull up", "weighted_pull_up"), ("weighted pullup", "weighted_pull_up"),
   ("weighted pull-up", "weighted_pull_up"),
   ("dragon flag", "dragon_flag"), ("dragon-flag", "dragon_flag"),
   ("dragonflag", "dragon_flag"),
   ("shrug", "shrug"),
   ("db bench", "dumbbell_bench_press"), ("dumbbell bench", "dumbbell_bench_press"),
   ("db press", "dumbbell_bench_press"),
   ("chest press", "chest_press_machine"), ("chest press machine", "chest_press_machine"),
   ("tricep dip machine", "tricep_dip_machine"), ("triceip dip", "tricep_dip_machine"),
   ("ab crunch", "ab_crunch"), ("ab_crunch", "ab_crunch"),
   ("cybex ab crunch", "cybex_ab_crunch"), ("cybex_ab_crunch", "cybex_ab_crunch"),
   ("leg press", "leg_press"), ("leg_press", "leg_press"),
   ("hack squat", "hack_squat"), ("hack_squat", "hack_squat"),
   ("face pulls", "face_pulls"), ("face pull", "face_pulls"),
   ("lat pulldown", "lat_pulldown"), ("lat pull down", "lat_pulldown"),
   ("lat pull-down", "lat_pulldown"),
   ("treadmill", "treadmill"), ("tm", "treadmill"),
   ("rowing", "rowing"), ("rower", "rowing"), ("row machine", "rowing"),
   ("bike", "stationary_bike"), ("stationary bike", "stationary_bike")]

/-- The classification table of `exercises.py` (`EXERCISE_TYPE`), verbatim. -/
def EXERCISE_TYPE : List (String × String) :=
  [("squat", "strength"), ("bench_press", "strength"), ("deadlift", "strength"),
   ("ohp", "strength"), ("barbell_row", "strength"), ("incline_row", "strength"),
   ("weighted_dip", "strength"), ("dumbbell_bench_press", "strength"),
   ("shrug", "strength"),
   ("dip", "bodyweight"), ("chin_up", "bodyweight"), ("weighted_chin_up", "bodyweight"),
   ("pull_up", "bodyweight"), ("weighted_pull_up", "bodyweight"),
   ("dragon_flag", "bodyweight"),
   ("chest_press_machine", "machine"), ("tricep_dip_machine", "machine"),
   ("ab_crunch", "machine"), ("cybex_ab_crunch", "machine"), ("leg_press", "machine"),
   ("hack_squat", "machine"), ("face_pulls", "machine"), ("lat_pulldown", "machine"),
   ("treadmill", "cardio"), ("rowing", "cardio"), ("stationary_bike", "cardio")]

/-- `normalizeExercise`: case-insensitive, whitespace-trimmed exact lookup. -/
def normalizeExercise (s : String) : Option String :=
  EXERCISE_MAP.lookup (pyStrip (pyLower s))

/-- `getExerciseType`. -/
def getExerciseType (s : String) : Option String := EXERCISE_TYPE.lookup s

/-- One set of a strength/bodyweight/machine record, as serialised by
`StrengthSet.model_dump(exclude_none=True)`: the `weight` key is present
iff a weight was attached, `reps` and `failed` are always present. -/
structure StrengthSet where
  weight : Option Rat := none
  reps : Int := 0
  failed : Bool := false
deriving DecidableEq

/-- A parsed record (the dict built by the parser); `none` in an optional
field means the key is absent (or `None`-valued, for `type`). -/
structure Record where
  ts : String := ""
  type : Option String := none
  exercise : Option String := none
  sets : Option (List StrengthSet) := none
  unit : Option String := none
  modality : Option String := none
  duration_min : Option Rat := none
  speed_mph : Option Rat := none
  incline_percent : Option Rat := none
  distance_miles : Option Rat := none
  rpe : Option Nat := none
  notes : Option String := none
  source : Option String := none
  raw : Option String := none
deriving DecidableEq

/-- A reference instant, given by its civil components after conversion to
America/Los_Angeles, with `pdt` true exactly when the instant falls in
daylight-saving time (so `strftime("%z")` yields `-0700`, else `-0800`). -/
structure PDT where
  year : Nat
  month : Nat
  day : Nat
  hour : Nat
  minute : Nat
  second : Nat
  pdt : Bool
deriving DecidableEq

def isLeap (y : Nat) : Bool := (y % 4 = 0 && y % 100 ≠ 0) || y % 400 = 0

def daysInMonth (y m : Nat) : Nat :=
  if m = 2 then (if isLeap y then 29 else 28)
  else if m = 4 || m = 6 || m = 9 || m = 11 then 30
  else 31

/-- Civil date one day before `(y, m, d)` (the effect of
`base_date - timedelta(days=1)` on the date components). -/
def prevDay (y m d : Nat) : Nat × Nat × Nat :=
  if 2 ≤ d then (y, m, d - 1)
  else if 2 ≤ m then (y, m - 1, daysInMonth y (m - 1))
  else (y - 1, 12, 31)

/-- `-07:00` during PDT, `-08:00` during PST, already colon-formatted as the
dispatcher formats `strftime("%z")`. -/
def offL (ref : PDT) : List Char :=
  if ref.pdt then ['-', '0', '7', ':', '0', '0'] else ['-', '0', '8', ':', '0', '0']

def timeL (ref : PDT) : List Char :=
  'T' :: (padL 2 ref.hour ++ ':' :: padL 2 ref.minute ++ ':' :: padL 2 ref.second ++ offL ref)

def timeStr (ref : PDT) : String := ⟨timeL ref⟩

def dateL (y m d : List Char) : List Char := y ++ '-' :: (m ++ '-' :: d)

def tsL (y m d : List Char) (ref : PDT) : List Char := dateL y m d ++ timeL ref

/-- `parseDate`: resolve an optional date token against the reference
instant; returns the date object together with the zero-padded component
strings.  For an ISO token the component strings are the literal digit
groups while the date object is (as in the source) the reference date. -/
def parseDate (tok : Option String) (ref : PDT) :
    Except String ((Nat × Nat × Nat) × String × String × String) :=
  let t := tok.getD ""
  if t.data = [] then
    .ok ((ref.year, ref.month, ref.day), pad4 ref.year, pad2 ref.month, pad2 ref.day)
  else
    let low := stripL (pyLowerL t.data)
    if low = "yesterday".data then
      let p := prevDay ref.year ref.month ref.day
      .ok ((p.1, p.2.1, p.2.2), pad4 p.1, pad2 p.2.1, pad2 p.2.2)
    else if low = "today".data then
      .ok ((ref.year, ref.month, ref.day), pad4 ref.year, pad2 ref.month, pad2 ref.day)
    else
      match isoFull t.data with
      | some ymd => .ok ((ref.year, ref.month, ref.day), ymd.1, ymd.2.1, ymd.2.2)
      | none => .error ("Could not parse date: \"" ++ t ++ "\"")

/-- One entry produced by `parseRepList`. -/
structure RepEntry where
  reps : Int
  failed : Bool
deriving DecidableEq

def isMarker (t : List Char) : Bool := t = ['x'] || t = ['f'] || t = "fail".data

def parseRepListGo : List (List Char) → Except String (List RepEntry)
  | [] => .ok []
  | p :: ps =>
    let t := stripL (pyLowerL p)
    if isMarker t then
      match parseRepListGo ps with
      | .ok l => .ok (⟨0, true⟩ :: l)
      | .error e => .error e
    else
      match pyIntL t with
      | some v =>
        match parseRepListGo ps with
        | .ok l => .ok (⟨v, false⟩ :: l)
        | .error e => .error e
      | none => .error ("invalid literal for int with base 10: " ++ ⟨t⟩)

/-- `parseRepList`: comma-separated rep list, each piece trimmed and
lower-cased; `x`/`f`/`fail` mark a failed set, anything else goes through
Python `int`. -/
def parseRepList (s : String) : Except String (List RepEntry) :=
  parseRepListGo (splitCommaL s.data)

/-- Lines 121-125 of the source: a failed entry is stored as
`reps=0, failed=True`, a plain entry keeps its rep count, no weight. -/
def toSetNoW (e : RepEntry) : StrengthSet :=
  if e.failed then ⟨none, 0, true⟩ else ⟨none, e.reps, false⟩

/-- Python `int()` applied to a non-negative float: truncation. -/
def ratTrunc (q : Rat) : Nat := q.floor.toNat

def fmtErr (rest : List Char) : String :=
  "Could not parse format: \"" ++ ⟨rest⟩ ++
    "\". Try formats like \"225x3x5\", \"20,20,25\", or \"405 2,1,x\""

/-- The dumbbell second-token logic (`4x10,7` after `2x90`): replicate the
first rep count, then one extra set per further comma-separated count; a
missing or malformed second token yields no sets. -/
def dumbbellSets (w : Rat) (second : Option (List Char)) :
    Except String (List StrengthSet × Nat) :=
  match second with
  | none => .ok ([], 1)
  | some p1 =>
    match matchCountReps p1 with
    | none => .ok ([], 1)
    | some cg =>
      match (splitCommaL cg.2).mapM (fun pc => pyIntL (stripL pc)) with
      | none => .error "invalid literal for int with base 10"
      | some repsList =>
        match repsList with
        | [] => .error "internal: empty split"
        | mainReps :: extra =>
          .ok (List.replicate cg.1 ⟨some w, mainReps, false⟩ ++
                 extra.map (fun rp => ⟨some w, rp, false⟩), 2)

/-- The ordered cascade of format recognisers of `parseStrengthWorkout`
(lines 108-220), returning produced sets, the parsed weight, the seeded
note and the number of tokens consumed. -/
def strengthCore (isBW isDB : Bool) (restOrig : List Char) (parts : List (List Char)) :
    Except String (List StrengthSet × Option Rat × List Char × Nat) :=
  match parts with
  | [] => .error "No weight/reps format found"
  | p0 :: tl =>
    if p0 = [] then .error "No weight/reps format found"
    else if isBW && allDigits p0 then
      .ok ([⟨none, (natValL p0 : Int), false⟩], none, [], 1)
    else if repCharsOk p0 && p0.contains ',' then
      match parseRepListGo (splitCommaL p0) with
      | .ok rl => .ok (rl.map toSetNoW, none, [], 1)
      | .error e => .error e
    else
      match (if isDB then match2xN p0 else none) with
      | some w =>
        match dumbbellSets w tl.head? with
        | .ok sc =>
          .ok (sc.1, some w, if sc.1.isEmpty then [] else "per dumbbell".data, sc.2)
        | .error e => .error e
      | none =>
        match matchNxM p0 with
        | some vn =>
          match (match tl.head? with | some p1 => matchXoptN p1 | none => none) with
          | some reps3 =>
            .ok (List.replicate vn.2 ⟨some vn.1, (reps3 : Int), false⟩, some vn.1, [], 2)
          | none =>
            if isBW then
              .ok (List.replicate (ratTrunc vn.1) ⟨none, (vn.2 : Int), false⟩, none, [], 1)
            else
              .ok ([⟨some vn.1, (vn.2 : Int), false⟩], some vn.1, [], 1)
        | none =>
          match matchNxMxP p0 with
          | some wcr =>
            .ok (List.replicate wcr.2.1 ⟨some wcr.1, (wcr.2.2 : Int), false⟩, some wcr.1, [], 1)
          | none =>
            match numFull p0 with
            | some w =>
              match tl.head? with
              | some p1 =>
                match matchIntxInt p1 with
                | some cr =>
                  .ok (List.replicate cr.1 ⟨some w, (cr.2 : Int), false⟩, some w, [], 2)
                | none =>
                  if repCharsOk p1 then
                    match parseRepListGo (splitCommaL p1) with
                    | .ok rl =>
                      .ok (rl.map (fun e => ⟨some w, e.reps, e.failed⟩), some w, [], 2)
                    | .error e => .error e
                  else .error (fmtErr restOrig)
              | none => .error (fmtErr restOrig)
            | none => .error (fmtErr restOrig)

/-- `parseStrengthWorkout`: run the cascade, then extract the RPE marker and
residual notes from the unconsumed tokens and assemble the record. -/
def parseStrengthWorkout (exNorm : String) (rest : String) (isoTs : String) :
    Except String Record :=
  let exType := getExerciseType exNorm
  let isBW := exType = some "bodyweight"
  let isDB := containsSubL "dumbbell".data exNorm.data
  if stripL rest.data = [] then
    .ok { ts := isoTs, type := exType, exercise := some exNorm, sets := some [] }
  else
    let parts := splitWsL (stripL rest.data)
    match strengthCore isBW isDB rest.data parts with
    | .error e => .error e
    | .ok t =>
      let remaining := joinSpaceL (parts.drop t.2.2.2)
      let rpe := searchV rpeAt remaining
      let notesRem := stripL (subAll rpeAt [] remaining)
      let notes :=
        if notesRem = [] then t.2.2.1
        else if t.2.2.1 = [] then notesRem
        else t.2.2.1 ++ ';' :: ' ' :: notesRem
      .ok { ts := isoTs, type := exType, exercise := some exNorm,
            unit := if t.2.1.isSome then some "lb" else none,
            sets := some t.1, rpe := rpe,
            notes := if notes = [] then none else some ⟨notes⟩ }

/-- `parseCardioWorkout`: independent scans for duration, speed, incline
(either order) and distance; every matched substring is removed, commas and
whitespace collapsed, and the trimmed remainder becomes the notes. -/
def parseCardioWorkout (modality : String) (rest : String) (isoTs : String) : Record :=
  let l := rest.data
  let n1 := subAll durAt [] l
  let n2 := subAll mphAt [] n1
  let n3 := subAll inclineDegAt [] n2
  let n4 := subAll inclineNumAt [] n3
  let n5 := subAll milesAt [] n4
  let n6 := stripL (subAll commaSpAt [' '] n5)
  { ts := isoTs, type := some "cardio", modality := some modality,
    duration_min := searchV durAt l,
    speed_mph := searchV mphAt l,
    incline_percent := searchV inclineAt l,
    distance_miles := searchV milesAt l,
    notes := if n6 = [] then none else some ⟨n6⟩ }

/-- The separator `(?:\s*:\s*|\s+)` after a date token; returns the number
of characters consumed. -/
def sepLen (l : List Char) : Option Nat :=
  let k := (l.takeWhile isPySpace).length
  match l.drop k with
  | ':' :: r2 => some (k + 1 + (r2.takeWhile isPySpace).length)
  | _ => if 1 ≤ k then some k else none

/-- `re.match(r'^(yesterday|today|\d{4}-\d{2}-\d{2})(?:\s*:\s*|\s+)', ...,
IGNORECASE)`: the token and the total matched length. -/
def matchDateStart (content : List Char) : Option (List Char × Nat) :=
  match litCI "yesterday".data content with
  | some r =>
    match sepLen r with
    | some k => some (content.take 9, 9 + k)
    | none => none
  | none =>
    match litCI "today".data content with
    | some r =>
      match sepLen r with
      | some k => some (content.take 5, 5 + k)
      | none => none
    | none =>
      match isoLead content with
      | some r =>
        match sepLen r with
        | some k => some (content.take 10, 10 + k)
        | none => none
      | none => none

/-- `\s+(\d{4}-\d{2}-\d{2})\s*$` at the head of the input (used through
`searchV` to model `re.search`). -/
def endDateAt (l : List Char) : Option (List Char × List Char) :=
  if (l.takeWhile isPySpace).isEmpty then none
  else
    let r0 := l.dropWhile isPySpace
    match isoLead r0 with
    | some r => if r.all isPySpace then some (r0.take 10, r) else none
    | none => none

/-- Python `str.rfind`: index of the last occurrence of `pat`. -/
def rfindGo (hay pat : List Char) (i : Nat) : Option Nat :=
  match hay with
  | [] => if pat.isEmpty then some i else none
  | _ :: t =>
    match rfindGo t pat (i + 1) with
    | some j => some j
    | none => if isPrefixL pat hay then some i else none

/-- The 1/2/3-word exercise-phrase lookup of the dispatcher
(lines 374-390): shorter phrases first, error naming the last candidate. -/
def resolveExercise (ws : List String) : Except String (String × Nat) :=
  match ws with
  | [] => .error "No exercise specified"
  | w0 :: tl =>
    match normalizeExercise w0 with
    | some c => .ok (c, 1)
    | none =>
      match tl with
      | [] => .error ("Unknown exercise: \"" ++ w0 ++ "\". Could not normalize.")
      | w1 :: tl2 =>
        let n2 := w0 ++ " " ++ w1
        match normalizeExercise n2 with
        | some c => .ok (c, 2)
        | none =>
          match tl2 with
          | [] => .error ("Unknown exercise: \"" ++ n2 ++ "\". Could not normalize.")
          | w2 :: _ =>
            let n3 := n2 ++ " " ++ w2
            match normalizeExercise n3 with
            | some c => .ok (c, 3)
            | none => .error ("Unknown exercise: \"" ++ n3 ++ "\". Could not normalize.")

/-- The dispatcher body after command-prefix handling: date-modifier
extraction, date resolution, timestamp assembly and routing (the code of
`parseWorkoutLog` from content stripping onward). -/
def dispatchContent (isNote : Bool) (content : List Char) (ref : PDT)
    (source : String) (message : String) : Except String (Record × String) :=
  let dm := matchDateStart content
  let dateTok : Option String :=
    match dm with
    | some tk => some ⟨tk.1⟩
    | none =>
      if isNote then none
      else (searchV endDateAt content).map (fun t => (⟨t⟩ : String))
  let logContent : List Char :=
    match dm with
    | some tk => content.drop tk.2
    | none =>
      if isNote then content
      else
        match searchV endDateAt content with
        | some t =>
          match rfindGo content t 0 with
          | some i => stripL (content.take i)
          | none => stripL (content.take (content.length - 1))
        | none => content
  match parseDate dateTok ref with
  | .error e => .error e
  | .ok dq =>
    let isoTs : String := ⟨tsL dq.2.1.data dq.2.2.1.data dq.2.2.2.data ref⟩
    let dstr : String := ⟨dateL dq.2.1.data dq.2.2.1.data dq.2.2.2.data⟩
    if isNote then
      .ok ({ ts := isoTs, type := some "note", notes := some ⟨stripL logContent⟩,
             source := some source, raw := some message }, dstr)
    else
      let words := (splitWsL logContent).map (fun w => (⟨w⟩ : String))
      match words with
      | [] => .error "No exercise specified"
      | _ :: _ =>
        match resolveExercise words with
        | .error e => .error e
        | .ok rc =>
          let rest : String := ⟨joinSpaceL ((splitWsL logContent).drop rc.2)⟩
          match getExerciseType rc.1 with
          | some t =>
            if t = "cardio" then
              .ok ({ parseCardioWorkout rc.1 rest isoTs with
                     source := some source, raw := some message }, dstr)
            else if t = "strength" || t = "machine" || t = "bodyweight" then
              match parseStrengthWorkout rc.1 rest isoTs with
              | .ok r => .ok ({ r with source := some source, raw := some message }, dstr)
              | .error e => .error e
            else .error ("Unknown exercise type for \"" ++ rc.1 ++ "\"")
          | none => .error ("Unknown exercise type for \"" ++ rc.1 ++ "\"")

/-- `parseWorkoutLog`: the top-level dispatcher. -/
def parseWorkoutLog (message : String) (ref : PDT) (source : String) :
    Except String (Record × String) :=
  let msg := message.data
  let isLog := isPrefixL "/log ".data msg
  let isNote := isPrefixL "/note ".data msg
  if !isLog && !isNote then .error "Message must start with /log or /note"
  else
    dispatchContent isNote (stripL (msg.drop (if isLog then 5 else 6))) ref source message

/-- The reference instant used by the repository's tests:
2026-02-16 10:30:00 in Pacific standard time. -/
def refFeb16 : PDT := ⟨2026, 2, 16, 10, 30, 0, false⟩

/-- Validity bounds on a reference instant's civil components (guaranteed
by Python `datetime`: four-digit-bounded year, months 1-12, days 1-31,
clock components in range). -/
def refValid (ref : PDT) : Prop :=
  ref.hour < 24 ∧ ref.minute < 60 ∧ ref.second < 60 ∧
    1 ≤ ref.month ∧ ref.month ≤ 12 ∧ 1 ≤ ref.day ∧ ref.day ≤ 31 ∧ ref.year < 10000

/-- Shape of resolved date components: a 4-digit year string and 2-digit
month and day strings. -/
def dateShape (ly lm ld : List Char) : Prop :=
  ly.length = 4 ∧ lm.length = 2 ∧ ld.length = 2 ∧
    (∀ c ∈ ly, isDig c = true) ∧ (∀ c ∈ lm, isDig c = true) ∧ (∀ c ∈ ld, isDig c = true)

/-- The exact timestamp shape `YYYY-MM-DDTHH:MM:SS±HH:MM`: twenty-five
characters with digits, separators and a sign at fixed positions. -/
def tsShapeP (s : String) : Prop :=
  ∃ y1 y2 y3 y4 mo1 mo2 dd1 dd2 hh1 hh2 mi1 mi2 ss1 ss2 sg oh1 oh2 om1 om2,
    s.data = [y1, y2, y3, y4, '-', mo1, mo2, '-', dd1, dd2, 'T',
              hh1, hh2, ':', mi1, mi2, ':', ss1, ss2, sg, oh1, oh2, ':', om1, om2] ∧
    isDig y1 = true ∧ isDig y2 = true ∧ isDig y3 = true ∧ isDig y4 = true ∧
    isDig mo1 = true ∧ isDig mo2 = true ∧ isDig dd1 = true ∧ isDig dd2 = true ∧
    isDig hh1 = true ∧ isDig hh2 = true ∧ isDig mi1 = true ∧ isDig mi2 = true ∧
    isDig ss1 = true ∧ isDig ss2 = true ∧ (sg = '+' ∨ sg = '-') ∧
    isDig oh1 = true ∧ isDig oh2 = true ∧ isDig om1 = true ∧ isDig om2 = true

/-- Specification of one rep-list piece: a trimmed lower-cased marker piece
yields `reps = 0, failed = true`; any other piece must go through Python
`int` and yields that value with `failed = false`. -/
def pieceRel (p : List Char) (e : RepEntry) : Prop :=
  (isMarker (stripL (pyLowerL p)) = true ∧ e = ⟨0, true⟩) ∨
    (isMarker (stripL (pyLowerL p)) = false ∧
      ∃ v, pyIntL (stripL (pyLowerL p)) = some v ∧ e = ⟨v, false⟩)

/-- A rep-list piece that is neither a marker nor `int`-parsable. -/
def badPiece (p : List Char) : Prop :=
  isMarker (stripL (pyLowerL p)) = false ∧ pyIntL (stripL (pyLowerL p)) = none

/-! ## Character and list toolkit -/

theorem dropWhile_eq_self_of {p : Char → Bool} {l : List Char}
    (h : ∀ c ∈ l, p c = false) : l.dropWhile p = l := by
  cases l with
  | nil => rfl
  | cons c r => simp [List.dropWhile_cons, h c (by simp)]

theorem stripL_eq_self {l : List Char} (h : ∀ c ∈ l, isPySpace c = false) :
    stripL l = l := by
  unfold stripL
  rw [dropWhile_eq_self_of h, dropWhile_eq_self_of, List.reverse_reverse]
  intro c hc
  exact h c (List.mem_reverse.mp hc)

theorem pyLowerL_eq_self {l : List Char} (h : ∀ c ∈ l, pyToLower c = c) :
    pyLowerL l = l := by
  unfold pyLowerL
  induction l with
  | nil => rfl
  | cons c r ih =>
    simp only [List.map_cons, h c (by simp)]
    rw [ih (fun x hx => h x (by simp [hx]))]

theorem pyToLower_of_isDig {c : Char} (h : isDig c = true) : pyToLower c = c := by
  unfold isDig at h
  simp only [Bool.and_eq_true, decide_eq_true_eq] at h
  unfold pyToLower
  have hc : (65 ≤ c.toNat && c.toNat ≤ 90) = false := by
    simp only [Bool.and_eq_false_iff, decide_eq_false_iff_not]
    omega
  simp [hc]

theorem isPySpace_of_isDig {c : Char} (h : isDig c = true) : isPySpace c = false := by
  unfold isDig at h
  simp only [Bool.and_eq_true, decide_eq_true_eq] at h
  unfold isPySpace
  simp only [Bool.or_eq_false_iff, decide_eq_false_iff_not]
  omega

/-! ## `parseRepList` lemmas -/

theorem parseRepListGo_ok_forall₂ :
    ∀ ps l, parseRepListGo ps = .ok l → List.Forall₂ pieceRel ps l := by
  intro ps
  induction ps with
  | nil =>
    intro l h
    unfold parseRepListGo at h
    cases h
    exact List.Forall₂.nil
  | cons p ps ih =>
    intro l h
    unfold parseRepListGo at h
    by_cases hm : isMarker (stripL (pyLowerL p)) = true
    · rw [if_pos hm] at h
      cases hgo : parseRepListGo ps with
      | error e => rw [hgo] at h; cases h
      | ok tl =>
        rw [hgo] at h
        cases h
        exact List.Forall₂.cons (Or.inl ⟨hm, rfl⟩) (ih tl hgo)
    · rw [if_neg hm] at h
      cases hint : pyIntL (stripL (pyLowerL p)) with
      | none => rw [hint] at h; cases h
      | some v =>
        rw [hint] at h
        cases hgo : parseRepListGo ps with
        | error e => rw [hgo] at h; cases h
        | ok tl =>
          rw [hgo] at h
          cases h
          exact List.Forall₂.cons
            (Or.inr ⟨Bool.eq_false_iff.mpr hm ▸ rfl, v, hint, rfl⟩) (ih tl hgo)

theorem parseRepListGo_error_of_bad :
    ∀ ps, (∃ p ∈ ps, badPiece p) → ∃ e, parseRepListGo ps = .error e := by
  intro ps
  induction ps with
  | nil => rintro ⟨p, hp, _⟩; cases hp
  | cons p ps ih =>
    rintro ⟨q, hq, hbad⟩
    rcases List.mem_cons.mp hq with rfl | hmem
    · obtain ⟨hm, hint⟩ := hbad
      refine ⟨"invalid literal for int with base 10: " ++ ⟨stripL (pyLowerL q)⟩, ?_⟩
      unfold parseRepListGo
      rw [if_neg (by simp [hm]), hint]
    · obtain ⟨e, he⟩ := ih ⟨q, hmem, hbad⟩
      unfold parseRepListGo
      by_cases hm : isMarker (stripL (pyLowerL p)) = true
      · exact ⟨e, by rw [if_pos hm, he]⟩
      · cases hint : pyIntL (stripL (pyLowerL p)) with
        | none => exact ⟨_, by rw [if_neg hm, hint]⟩
        | some v => exact ⟨e, by rw [if_neg hm, hint, he]⟩

theorem parseRepListGo_failed_zero :
    ∀ ps l, parseRepListGo ps = .ok l → ∀ e ∈ l, e.failed = true → e.reps = 0 := by
  intro ps
  induction ps with
  | nil =>
    intro l h
    unfold parseRepListGo at h
    cases h
    intro e he
    cases he
  | cons p ps ih =>
    intro l h
    unfold parseRepListGo at h
    by_cases hm : isMarker (stripL (pyLowerL p)) = true
    · rw [if_pos hm] at h
      cases hgo : parseRepListGo ps with
      | error e => rw [hgo] at h; cases h
      | ok tl =>
        rw [hgo] at h
        cases h
        intro e he hf
        rcases List.mem_cons.mp he with rfl | hmem
        · rfl
        · exact ih tl hgo e hmem hf
    · rw [if_neg hm] at h
      cases hint : pyIntL (stripL (pyLowerL p)) with
      | none => rw [hint] at h; cases h
      | some v =>
        rw [hint] at h
        cases hgo : parseRepListGo ps with
        | error e => rw [hgo] at h; cases h
        | ok tl =>
          rw [hgo] at h
          cases h
          intro e he hf
          rcases List.mem_cons.mp he with rfl | hmem
          · cases hf
          · exact ih tl hgo e hmem hf

/-! ## Strength-cascade lemmas -/

theorem dumbbellSets_mem {w : Rat} {second : Option (List Char)}
    {sets : List StrengthSet} {k : Nat}
    (h : dumbbellSets w second = .ok (sets, k)) :
    ∀ s ∈ sets, s.weight = some w ∧ s.failed = false := by
  unfold dumbbellSets at h
  split at h
  · simp only [Except.ok.injEq, Prod.mk.injEq] at h
    obtain ⟨h1, -⟩ := h
    subst h1
    intro s hs
    cases hs
  · split at h
    · simp only [Except.ok.injEq, Prod.mk.injEq] at h
      obtain ⟨h1, -⟩ := h
      subst h1
      intro s hs
      cases hs
    · split at h
      · exact Except.noConfusion h
      · split at h
        · exact Except.noConfusion h
        · simp only [Except.ok.injEq, Prod.mk.injEq] at h
          obtain ⟨h1, -⟩ := h
          subst h1
          intro s hs
          rcases List.mem_append.mp hs with hs | hs
          · obtain ⟨-, rfl⟩ := List.mem_replicate.mp hs
            exact ⟨rfl, rfl⟩
          · obtain ⟨rp, -, rfl⟩ := List.mem_map.mp hs
            exact ⟨rfl, rfl⟩

theorem strengthCore_cases {bw db : Bool} {rest : List Char} {parts : List (List Char)}
    {sets : List StrengthSet} {wt : Option Rat} {nts : List Char} {k : Nat}
    (h : strengthCore bw db rest parts = .ok (sets, wt, nts, k)) :
    ((wt = none ∧ ∀ s ∈ sets, s.weight = none) ∨
      (∃ q, wt = some q ∧ ∀ s ∈ sets, s.weight = some q)) ∧
    (∀ s ∈ sets, s.failed = true → s.reps = 0) := by
  unfold strengthCore at h
  split at h
  · exact Except.noConfusion h
  rename_i p0 tl
  split at h
  · exact Except.noConfusion h
  split at h
  · -- bodyweight bare number
    simp only [Except.ok.injEq, Prod.mk.injEq] at h
    obtain ⟨hs, hw, -, -⟩ := h
    subst hs; subst hw
    refine ⟨Or.inl ⟨rfl, ?_⟩, ?_⟩
    · intro s hs
      rcases List.mem_singleton.mp hs with rfl
      rfl
    · intro s hs hf
      rcases List.mem_singleton.mp hs with rfl
      cases hf
  split at h
  · -- comma-separated rep list
    split at h
    · rename_i rl hgo
      simp only [Except.ok.injEq, Prod.mk.injEq] at h
      obtain ⟨hs, hw, -, -⟩ := h
      subst hs; subst hw
      refine ⟨Or.inl ⟨rfl, ?_⟩, ?_⟩
      · intro s hs
        obtain ⟨e, -, rfl⟩ := List.mem_map.mp hs
        by_cases hef : e.failed = true
        · simp [toSetNoW, hef]
        · simp [toSetNoW, hef]
      · intro s hs hf
        obtain ⟨e, he, rfl⟩ := List.mem_map.mp hs
        by_cases hef : e.failed = true
        · simp [toSetNoW, hef]
        · simp [toSetNoW, hef] at hf
    · exact Except.noConfusion h
  split at h
  · -- dumbbell pair notation
    rename_i w hdb
    split at h
    · rename_i sc hds
      simp only [Except.ok.injEq, Prod.mk.injEq] at h
      obtain ⟨hs, hw, -, -⟩ := h
      subst hs; subst hw
      have hds2 : dumbbellSets w tl.head? = .ok (sc.1, sc.2) := hds
      have hmem := dumbbellSets_mem hds2
      refine ⟨Or.inr ⟨w, rfl, fun s hs => (hmem s hs).1⟩, ?_⟩
      intro s hs hf
      rw [(hmem s hs).2] at hf
      cases hf
    · exact Except.noConfusion h
  -- not the dumbbell branch
  split at h
  · -- first token matches <number>x<number>
    rename_i vn hnm
    split at h
    · -- second token x?<digits>: weight x sets x reps
      simp only [Except.ok.injEq, Prod.mk.injEq] at h
      obtain ⟨hs, hw, -, -⟩ := h
      subst hs; subst hw
      refine ⟨Or.inr ⟨vn.1, rfl, ?_⟩, ?_⟩
      · intro s hs
        obtain ⟨-, rfl⟩ := List.mem_replicate.mp hs
        rfl
      · intro s hs hf
        obtain ⟨-, rfl⟩ := List.mem_replicate.mp hs
        cases hf
    · split at h
      · -- bodyweight sets x reps
        simp only [Except.ok.injEq, Prod.mk.injEq] at h
        obtain ⟨hs, hw, -, -⟩ := h
        subst hs; subst hw
        refine ⟨Or.inl ⟨rfl, ?_⟩, ?_⟩
        · intro s hs
          obtain ⟨-, rfl⟩ := List.mem_replicate.mp hs
          rfl
        · intro s hs hf
          obtain ⟨-, rfl⟩ := List.mem_replicate.mp hs
          cases hf
      · -- strength weight x reps, single set
        simp only [Except.ok.injEq, Prod.mk.injEq] at h
        obtain ⟨hs, hw, -, -⟩ := h
        subst hs; subst hw
        refine ⟨Or.inr ⟨vn.1, rfl, ?_⟩, ?_⟩
        · intro s hs
          rcases List.mem_singleton.mp hs with rfl
          rfl
        · intro s hs hf
          rcases List.mem_singleton.mp hs with rfl
          cases hf
  split at h
  · -- fused weight x sets x reps
    rename_i wcr hxp
    simp only [Except.ok.injEq, Prod.mk.injEq] at h
    obtain ⟨hs, hw, -, -⟩ := h
    subst hs; subst hw
    refine ⟨Or.inr ⟨wcr.1, rfl, ?_⟩, ?_⟩
    · intro s hs
      obtain ⟨-, rfl⟩ := List.mem_replicate.mp hs
      rfl
    · intro s hs hf
      obtain ⟨-, rfl⟩ := List.mem_replicate.mp hs
      cases hf
  split at h
  · -- bare weight first
    rename_i w hnf
    split at h
    · -- second token present
      rename_i p1 hhd
      split at h
      · -- <count>x<reps>
        rename_i cr hii
        simp only [Except.ok.injEq, Prod.mk.injEq] at h
        obtain ⟨hs, hw, -, -⟩ := h
        subst hs; subst hw
        refine ⟨Or.inr ⟨w, rfl, ?_⟩, ?_⟩
        · intro s hs
          obtain ⟨-, rfl⟩ := List.mem_replicate.mp hs
          rfl
        · intro s hs hf
          obtain ⟨-, rfl⟩ := List.mem_replicate.mp hs
          cases hf
      · -- weighted rep list
        split at h
        · split at h
          · rename_i rl hgo
            simp only [Except.ok.injEq, Prod.mk.injEq] at h
            obtain ⟨hs, hw, -, -⟩ := h
            subst hs; subst hw
            refine ⟨Or.inr ⟨w, rfl, ?_⟩, ?_⟩
            · intro s hs
              obtain ⟨e, -, rfl⟩ := List.mem_map.mp hs
              rfl
            · intro s hs hf
              obtain ⟨e, he, rfl⟩ := List.mem_map.mp hs
              exact parseRepListGo_failed_zero _ _ hgo e he hf
          · exact Except.noConfusion h
        · exact Except.noConfusion h
    · exact Except.noConfusion h
  · exact Except.noConfusion h

/-! ## Record projection lemmas -/

theorem update_sets (r : Record) (a b : Option String) :
    ({ r with source := a, raw := b } : Record).sets = r.sets := rfl

theorem update_ts (r : Record) (a b : Option String) :
    ({ r with source := a, raw := b } : Record).ts = r.ts := rfl

theorem cardio_sets_none (m rest ts : String) : (parseCardioWorkout m rest ts).sets = none := rfl

theorem cardio_ts (m rest ts : String) : (parseCardioWorkout m rest ts).ts = ts := rfl

theorem parseStrengthWorkout_cases {exNorm rest isoTs : String} {r : Record}
    (h : parseStrengthWorkout exNorm rest isoTs = .ok r) :
    ((r.unit = none ∧ ∀ s ∈ r.sets.getD [], s.weight = none) ∨
      (r.unit = some "lb" ∧ ∀ s ∈ r.sets.getD [], s.weight.isSome = true)) ∧
    (∀ s ∈ r.sets.getD [], s.failed = true → s.reps = 0) ∧ r.ts = isoTs := by
  unfold parseStrengthWorkout at h
  dsimp only at h
  split at h
  · simp only [Except.ok.injEq] at h
    subst h
    refine ⟨Or.inl ⟨rfl, ?_⟩, ?_, rfl⟩
    · intro s hs
      cases hs
    · intro s hs
      cases hs
  · split at h
    · exact Except.noConfusion h
    · rename_i t hcore
      simp only [Except.ok.injEq] at h
      subst h
      obtain ⟨hw, hf⟩ := strengthCore_cases
        (show strengthCore _ _ _ _ = .ok (t.1, t.2.1, t.2.2.1, t.2.2.2) from hcore)
      refine ⟨?_, ?_, rfl⟩
      · rcases hw with ⟨hwn, hmem⟩ | ⟨q, hws, hmem⟩
        · left
          constructor
          · show (if t.2.1.isSome then some "lb" else none) = none
            rw [hwn]
            rfl
          · exact hmem
        · right
          constructor
          · show (if t.2.1.isSome then some "lb" else none) = some "lb"
            rw [hws]
            rfl
          · intro s hs
            rw [hmem s hs]
            rfl
      · exact hf

theorem isoFull_inv {l : List Char} {y m d : String}
    (h : isoFull l = some (y, m, d)) :
    ∃ y1 y2 y3 y4 m1 m2 d1 d2,
      l = [y1, y2, y3, y4, '-', m1, m2, '-', d1, d2] ∧
      y = ⟨[y1, y2, y3, y4]⟩ ∧ m = ⟨[m1, m2]⟩ ∧ d = ⟨[d1, d2]⟩ ∧
      isDig y1 = true ∧ isDig y2 = true ∧ isDig y3 = true ∧ isDig y4 = true ∧
      isDig m1 = true ∧ isDig m2 = true ∧ isDig d1 = true ∧ isDig d2 = true := by
  unfold isoFull at h
  split at h
  · rename_i y1 y2 y3 y4 m1 m2 d1 d2
    split at h
    · rename_i hc
      simp only [Bool.and_eq_true] at hc
      obtain ⟨⟨⟨⟨⟨⟨⟨c1, c2⟩, c3⟩, c4⟩, c5⟩, c6⟩, c7⟩, c8⟩ := hc
      simp only [Option.some.injEq, Prod.mk.injEq] at h
      obtain ⟨hy, hm, hd⟩ := h
      exact ⟨y1, y2, y3, y4, m1, m2, d1, d2, rfl, hy.symm, hm.symm, hd.symm,
        c1, c2, c3, c4, c5, c6, c7, c8⟩
    · exact Option.noConfusion h
  · exact Option.noConfusion h

/-! ## Padding, date and timestamp-shape lemmas -/

theorem digitChar_isDig {k : Nat} (h : k < 10) : isDig (digitChar k) = true := by
  interval_cases k <;> decide

theorem reprGo_digits : ∀ f n, ∀ c ∈ reprGo f n, isDig c = true := by
  intro f
  induction f with
  | zero =>
    intro n c hc
    cases hc
  | succ f ih =>
    intro n c hc
    unfold reprGo at hc
    by_cases hn : n < 10
    · rw [if_pos hn] at hc
      rcases List.mem_singleton.mp hc with rfl
      exact digitChar_isDig hn
    · rw [if_neg hn] at hc
      rcases List.mem_append.mp hc with hc | hc
      · exact ih _ c hc
      · rcases List.mem_singleton.mp hc with rfl
        exact digitChar_isDig (Nat.mod_lt n (by omega))

theorem reprGo_len_pos (f n : Nat) : 1 ≤ (reprGo (f + 1) n).length := by
  unfold reprGo
  by_cases hn : n < 10
  · rw [if_pos hn]
    simp
  · rw [if_neg hn]
    simp

theorem reprGo_len_le : ∀ f k n, 0 < k → n < 10 ^ k → (reprGo f n).length ≤ k := by
  intro f
  induction f with
  | zero =>
    intro k n hk _
    simp [reprGo]
  | succ f ih =>
    intro k n hk hn
    unfold reprGo
    by_cases h10 : n < 10
    · rw [if_pos h10]
      simpa using hk
    · rw [if_neg h10]
      rw [List.length_append, List.length_singleton]
      have hk2 : 2 ≤ k := by
        by_contra hlt
        have hk1 : k = 1 := by omega
        subst hk1
        simp at hn
        omega
      have hpow : 10 ^ k = 10 ^ (k - 1) * 10 := by
        rw [← pow_succ]
        congr 1
        omega
      have hdiv : n / 10 < 10 ^ (k - 1) := by
        rw [Nat.div_lt_iff_lt_mul (by norm_num)]
        rw [← hpow]
        exact hn
      have := ih (k - 1) (n / 10) (by omega) hdiv
      omega

theorem padL_shape {k n : Nat} (hk : 0 < k) (hn : n < 10 ^ k) :
    (padL k n).length = k ∧ ∀ c ∈ padL k n, isDig c = true := by
  unfold padL natReprL
  constructor
  · rw [List.length_append, List.length_replicate]
    have h1 := reprGo_len_le (n + 1) k n hk hn
    have h2 := reprGo_len_pos n n
    omega
  · intro c hc
    rcases List.mem_append.mp hc with hc | hc
    · rw [List.eq_of_mem_replicate hc]
      decide
    · exact reprGo_digits _ _ c hc

theorem len4_explicit {l : List Char} (h : l.length = 4) :
    ∃ a b c d, l = [a, b, c, d] := by
  rcases l with - | ⟨a, l⟩
  · simp at h
  rcases l with - | ⟨b, l⟩
  · simp at h
  rcases l with - | ⟨c, l⟩
  · simp at h
  rcases l with - | ⟨d, l⟩
  · simp at h
  rcases l with - | ⟨e, l⟩
  · exact ⟨a, b, c, d, rfl⟩
  · simp only [List.length_cons] at h
    omega

theorem daysInMonth_le (y m : Nat) : daysInMonth y m ≤ 31 := by
  unfold daysInMonth
  split
  · split <;> omega
  · split <;> omega

theorem prevDay_bounds {y m d : Nat} (hm1 : 1 ≤ m) (hm2 : m ≤ 12) (hd1 : 1 ≤ d)
    (hd2 : d ≤ 31) (hy : y < 10000) :
    (prevDay y m d).1 < 10000 ∧ (prevDay y m d).2.1 ≤ 12 ∧ (prevDay y m d).2.2 ≤ 31 := by
  unfold prevDay
  split
  · dsimp only
    exact ⟨by omega, by omega, by omega⟩
  · split
    · dsimp only
      exact ⟨by omega, by omega, daysInMonth_le y (m - 1)⟩
    · dsimp only
      exact ⟨by omega, by omega, by omega⟩

theorem parseDate_shape {tok : Option String} {ref : PDT}
    {dq : (Nat × Nat × Nat) × String × String × String}
    (hv : refValid ref) (h : parseDate tok ref = .ok dq) :
    dateShape dq.2.1.data dq.2.2.1.data dq.2.2.2.data := by
  obtain ⟨-, -, -, hm1, hm2, hd1, hd2, hy⟩ := hv
  have hp100 : (10 : Nat) ^ 2 = 100 := by norm_num
  have hp10000 : (10 : Nat) ^ 4 = 10000 := by norm_num
  unfold parseDate at h
  dsimp only at h
  split at h
  · simp only [Except.ok.injEq] at h
    subst h
    exact ⟨(padL_shape (by norm_num) (by omega)).1,
      (padL_shape (by norm_num) (by omega)).1,
      (padL_shape (by norm_num) (by omega)).1,
      (padL_shape (by norm_num) (by omega)).2,
      (padL_shape (by norm_num) (by omega)).2,
      (padL_shape (by norm_num) (by omega)).2⟩
  · split at h
    · simp only [Except.ok.injEq] at h
      subst h
      obtain ⟨hb1, hb2, hb3⟩ := prevDay_bounds hm1 hm2 hd1 hd2 hy
      exact ⟨(padL_shape (by norm_num) (by omega)).1,
        (padL_shape (by norm_num) (by omega)).1,
        (padL_shape (by norm_num) (by omega)).1,
        (padL_shape (by norm_num) (by omega)).2,
        (padL_shape (by norm_num) (by omega)).2,
        (padL_shape (by norm_num) (by omega)).2⟩
    · split at h
      · simp only [Except.ok.injEq] at h
        subst h
        exact ⟨(padL_shape (by norm_num) (by omega)).1,
          (padL_shape (by norm_num) (by omega)).1,
          (padL_shape (by norm_num) (by omega)).1,
          (padL_shape (by norm_num) (by omega)).2,
          (padL_shape (by norm_num) (by omega)).2,
          (padL_shape (by norm_num) (by omega)).2⟩
      · split at h
        · rename_i ymd hiso
          simp only [Except.ok.injEq] at h
          subst h
          obtain ⟨y1, y2, y3, y4, m1, m2, dd1, dd2, -, hy', hm', hd',
            g1, g2, g3, g4, g5, g6, g7, g8⟩ :=
            isoFull_inv (show isoFull _ = some (ymd.1, ymd.2.1, ymd.2.2) from hiso)
          dsimp only
          rw [hy', hm', hd']
          refine ⟨rfl, rfl, rfl, ?_, ?_, ?_⟩
          · intro c hc
            simp only [List.mem_cons, List.not_mem_nil, or_false] at hc
            rcases hc with rfl | rfl | rfl | rfl
            exacts [g1, g2, g3, g4]
          · intro c hc
            simp only [List.mem_cons, List.not_mem_nil, or_false] at hc
            rcases hc with rfl | rfl
            exacts [g5, g6]
          · intro c hc
            simp only [List.mem_cons, List.not_mem_nil, or_false] at hc
            rcases hc with rfl | rfl
            exacts [g7, g8]
        · exact Except.noConfusion h

theorem tsShapeP_tsL {ly lm ld : List Char} {ref : PDT}
    (hs : dateShape ly lm ld) (hv : refValid ref) :
    tsShapeP ⟨tsL ly lm ld ref⟩ := by
  obtain ⟨hl4, hlm2, hld2, hdy, hdm, hdd⟩ := hs
  obtain ⟨hh, hmi, hsec, -, -, -, -, -⟩ := hv
  obtain ⟨a, b, c, d, rfl⟩ := len4_explicit hl4
  obtain ⟨e, f, rfl⟩ := List.length_eq_two.mp hlm2
  obtain ⟨g, k, rfl⟩ := List.length_eq_two.mp hld2
  have hp100 : (10 : Nat) ^ 2 = 100 := by norm_num
  have hhp := padL_shape (k := 2) (n := ref.hour) (by norm_num) (by omega)
  have hmp := padL_shape (k := 2) (n := ref.minute) (by norm_num) (by omega)
  have hsp := padL_shape (k := 2) (n := ref.second) (by norm_num) (by omega)
  obtain ⟨p1, p2, hp⟩ := List.length_eq_two.mp hhp.1
  obtain ⟨q1, q2, hq⟩ := List.length_eq_two.mp hmp.1
  obtain ⟨u1, u2, hu⟩ := List.length_eq_two.mp hsp.1
  have hdp1 : isDig p1 = true := hhp.2 p1 (by rw [hp]; simp)
  have hdp2 : isDig p2 = true := hhp.2 p2 (by rw [hp]; simp)
  have hdq1 : isDig q1 = true := hmp.2 q1 (by rw [hq]; simp)
  have hdq2 : isDig q2 = true := hmp.2 q2 (by rw [hq]; simp)
  have hdu1 : isDig u1 = true := hsp.2 u1 (by rw [hu]; simp)
  have hdu2 : isDig u2 = true := hsp.2 u2 (by rw [hu]; simp)
  have hda : isDig a = true := hdy a (by simp)
  have hdb : isDig b = true := hdy b (by simp)
  have hdc : isDig c = true := hdy c (by simp)
  have hdd' : isDig d = true := hdy d (by simp)
  have hde : isDig e = true := hdm e (by simp)
  have hdf : isDig f = true := hdm f (by simp)
  have hdg : isDig g = true := hdd g (by simp)
  have hdk : isDig k = true := hdd k (by simp)
  cases hpdt : ref.pdt
  · refine ⟨a, b, c, d, e, f, g, k, p1, p2, q1, q2, u1, u2, '-', '0', '8', '0', '0',
      ?_, hda, hdb, hdc, hdd', hde, hdf, hdg, hdk, hdp1, hdp2, hdq1, hdq2, hdu1, hdu2,
      Or.inr rfl, by decide, by decide, by decide, by decide⟩
    simp [tsL, dateL, timeL, offL, hpdt, hp, hq, hu]
  · refine ⟨a, b, c, d, e, f, g, k, p1, p2, q1, q2, u1, u2, '-', '0', '7', '0', '0',
      ?_, hda, hdb, hdc, hdd', hde, hdf, hdg, hdk, hdp1, hdp2, hdq1, hdq2, hdu1, hdu2,
      Or.inr rfl, by decide, by decide, by decide, by decide⟩
    simp [tsL, dateL, timeL, offL, hpdt, hp, hq, hu]

/-! ## Scan lemmas for the cardio extractor -/

theorem takeWhile_eq_self_of {p : Char → Bool} {l : List Char}
    (h : ∀ c ∈ l, p c = true) : l.takeWhile p = l := by
  induction l with
  | nil => rfl
  | cons c r ih =>
    rw [List.takeWhile_cons, h c (by simp)]
    simp only [if_true]
    rw [ih (fun x hx => h x (by simp [hx]))]

theorem dropWhile_eq_nil_of {p : Char → Bool} {l : List Char}
    (h : ∀ c ∈ l, p c = true) : l.dropWhile p = [] := by
  induction l with
  | nil => rfl
  | cons c r ih =>
    rw [List.dropWhile_cons, h c (by simp)]
    simp only [if_true]
    exact ih (fun x hx => h x (by simp [hx]))

theorem takeWhile_append_digits {ds t : List Char} (h : ∀ c ∈ ds, isDig c = true) :
    (ds ++ t).takeWhile isDig = ds ++ t.takeWhile isDig := by
  induction ds with
  | nil => rfl
  | cons c r ih =>
    rw [List.cons_append, List.takeWhile_cons, h c (by simp)]
    simp only [if_true]
    rw [ih (fun x hx => h x (by simp [hx])), List.cons_append]

theorem dropWhile_append_digits {ds t : List Char} (h : ∀ c ∈ ds, isDig c = true) :
    (ds ++ t).dropWhile isDig = t.dropWhile isDig := by
  induction ds with
  | nil => rfl
  | cons c r ih =>
    rw [List.cons_append, List.dropWhile_cons, h c (by simp)]
    simp only [if_true]
    exact ih (fun x hx => h x (by simp [hx]))

theorem numAt_digits_append {ds t : List Char} (hne : ds ≠ [])
    (hd : ∀ c ∈ ds, isDig c = true)
    (h1 : t.takeWhile isDig = []) (h2 : t.dropWhile isDig = t)
    (h3 : ∀ r2, t ≠ '.' :: r2) :
    numAt (ds ++ t) = some (decRat ds [], t) := by
  unfold numAt
  dsimp only
  rw [takeWhile_append_digits hd, dropWhile_append_digits hd, h1, h2, List.append_nil]
  have hni : ds.isEmpty = false := by
    cases ds with
    | nil => exact absurd rfl hne
    | cons a b => rfl
  rw [hni]
  simp only [Bool.false_eq_true, if_false]

theorem numAt_digits_end {ds : List Char} (hne : ds ≠ [])
    (hd : ∀ c ∈ ds, isDig c = true) :
    numAt ds = some (decRat ds [], []) := by
  have h := numAt_digits_append (t := []) hne hd rfl rfl (by intro r2 hc; cases hc)
  rwa [List.append_nil] at h

theorem numAt_cons_nondigit {c : Char} {r : List Char} (h : isDig c = false) :
    numAt (c :: r) = none := by
  unfold numAt
  dsimp only
  rw [List.takeWhile_cons, h]
  rfl

theorem searchV_eq_none {α : Type} (m : List Char → Option (α × List Char)) :
    ∀ l, (∀ t, t <:+ l → m t = none) → searchV m l = none := by
  intro l
  induction l with
  | nil =>
    intro h
    unfold searchV
    rw [h [] List.nil_suffix]
    rfl
  | cons c r ih =>
    intro h
    unfold searchV
    rw [h (c :: r) (List.suffix_refl _)]
    exact ih (fun t ht => h t (List.suffix_cons_iff.mpr (Or.inr ht)))

theorem searchV_none_suffix {α : Type} (m : List Char → Option (α × List Char)) :
    ∀ l, searchV m l = none → ∀ t, t <:+ l → m t = none := by
  intro l
  induction l with
  | nil =>
    intro h t ht
    rw [List.suffix_nil.mp ht]
    unfold searchV at h
    cases hm : m [] with
    | some p => rw [hm] at h; cases h
    | none => rfl
  | cons c r ih =>
    intro h t ht
    unfold searchV at h
    cases hm : m (c :: r) with
    | some p => rw [hm] at h; cases h
    | none =>
      rw [hm] at h
      rcases List.suffix_cons_iff.mp ht with rfl | ht2
      · exact hm
      · exact ih h t ht2

theorem suffix_append_cases {t a b : List Char} (h : t <:+ a ++ b) :
    (∃ a2, a2 <:+ a ∧ a2 ≠ [] ∧ t = a2 ++ b) ∨ t <:+ b := by
  induction a with
  | nil => right; simpa using h
  | cons c r ih =>
    rw [List.cons_append] at h
    rcases List.suffix_cons_iff.mp h with rfl | h2
    · left
      exact ⟨c :: r, List.suffix_refl _, by simp, by simp⟩
    · rcases ih h2 with ⟨a2, ha, hne, rfl⟩ | hb
      · left
        exact ⟨a2, List.suffix_cons_iff.mpr (Or.inr ha), hne, rfl⟩
      · right
        exact hb

theorem subGo_nil {α : Type} (m : List Char → Option (α × List Char))
    (rep : List Char) (f : Nat) : subGo m rep f [] = [] := by
  cases f <;> rfl

theorem subGo_id {α : Type} (m : List Char → Option (α × List Char)) (rep : List Char) :
    ∀ f l, (∀ t, t <:+ l → m t = none) → subGo m rep f l = l := by
  intro f
  induction f with
  | zero =>
    intro l h
    cases l <;> rfl
  | succ f ih =>
    intro l h
    cases l with
    | nil => rfl
    | cons c r =>
      show (match m (c :: r) with
        | some p => rep ++ subGo m rep f p.2
        | none => c :: subGo m rep f r) = c :: r
      rw [h (c :: r) (List.suffix_refl _)]
      rw [ih r (fun t ht => h t (List.suffix_cons_iff.mpr (Or.inr ht)))]

theorem subAll_full_match {α : Type} (m : List Char → Option (α × List Char))
    (rep : List Char) {c : Char} {r : List Char} {v : α}
    (hm : m (c :: r) = some (v, [])) : subAll m rep (c :: r) = rep := by
  unfold subAll
  rw [List.length_cons]
  show (match m (c :: r) with
    | some p => rep ++ subGo m rep r.length p.2
    | none => c :: subGo m rep r.length r) = rep
  rw [hm]
  dsimp only
  rw [subGo_nil, List.append_nil]

theorem subAll_id {α : Type} (m : List Char → Option (α × List Char)) (rep : List Char)
    {l : List Char} (h : ∀ t, t <:+ l → m t = none) : subAll m rep l = l :=
  subGo_id m rep l.length l h

theorem ne_dot_cons_of_head {t : List Char} (h : ¬ t.head? = some '.') :
    ∀ r2, t ≠ '.' :: r2 := by
  intro r2 hc
  apply h
  rw [hc]
  rfl

theorem searchV_some_head {α : Type} (m : List Char → Option (α × List Char))
    {c : Char} {r : List Char} {v : α} {rest : List Char}
    (hm : m (c :: r) = some (v, rest)) : searchV m (c :: r) = some v := by
  unfold searchV
  rw [hm]

theorem inclineAt_of_deg {l : List Char} {p : Rat × List Char}
    (h : inclineDegAt l = some p) : inclineAt l = some p := by
  unfold inclineAt
  rw [h]

theorem inclineAt_of_num {l : List Char} {p : Rat × List Char}
    (h1 : inclineDegAt l = none) (h2 : inclineNumAt l = some p) :
    inclineAt l = some p := by
  unfold inclineAt
  rw [h1, h2]

theorem durAt_cons_nondigit {c : Char} {r : List Char} (h : isDig c = false) :
    durAt (c :: r) = none := by
  unfold durAt
  rw [numAt_cons_nondigit h]

theorem mphAt_cons_nondigit {c : Char} {r : List Char} (h : isDig c = false) :
    mphAt (c :: r) = none := by
  unfold mphAt
  rw [numAt_cons_nondigit h]

theorem milesAt_cons_nondigit {c : Char} {r : List Char} (h : isDig c = false) :
    milesAt (c :: r) = none := by
  unfold milesAt
  rw [numAt_cons_nondigit h]

theorem inclineDegAt_cons_nondigit {c : Char} {r : List Char} (h : isDig c = false) :
    inclineDegAt (c :: r) = none := by
  unfold inclineDegAt
  rw [numAt_cons_nondigit h]

theorem durAt_digits_end {t : List Char} (hd : ∀ c ∈ t, isDig c = true) :
    durAt t = none := by
  by_cases hne : t = []
  · rw [hne]; rfl
  · unfold durAt
    rw [numAt_digits_end hne hd]
    rfl

theorem mphAt_digits_end {t : List Char} (hd : ∀ c ∈ t, isDig c = true) :
    mphAt t = none := by
  by_cases hne : t = []
  · rw [hne]; rfl
  · unfold mphAt
    rw [numAt_digits_end hne hd]
    rfl

theorem milesAt_digits_end {t : List Char} (hd : ∀ c ∈ t, isDig c = true) :
    milesAt t = none := by
  by_cases hne : t = []
  · rw [hne]; rfl
  · unfold milesAt
    rw [numAt_digits_end hne hd]
    rfl

theorem inclineDegAt_digits_end {t : List Char} (hd : ∀ c ∈ t, isDig c = true) :
    inclineDegAt t = none := by
  by_cases hne : t = []
  · rw [hne]; rfl
  · unfold inclineDegAt
    rw [numAt_digits_end hne hd]
    rfl

theorem durAt_digits_degline {a2 : List Char} (hne : a2 ≠ [])
    (hd : ∀ c ∈ a2, isDig c = true) :
    durAt (a2 ++ " degree incline".data) = none := by
  unfold durAt
  rw [numAt_digits_append hne hd (by decide) (by decide)
        (ne_dot_cons_of_head (by decide))]
  rfl

theorem mphAt_digits_degline {a2 : List Char} (hne : a2 ≠ [])
    (hd : ∀ c ∈ a2, isDig c = true) :
    mphAt (a2 ++ " degree incline".data) = none := by
  unfold mphAt
  rw [numAt_digits_append hne hd (by decide) (by decide)
        (ne_dot_cons_of_head (by decide))]
  rfl

theorem milesAt_digits_degline {a2 : List Char} (hne : a2 ≠ [])
    (hd : ∀ c ∈ a2, isDig c = true) :
    milesAt (a2 ++ " degree incline".data) = none := by
  unfold milesAt
  rw [numAt_digits_append hne hd (by decide) (by decide)
        (ne_dot_cons_of_head (by decide))]
  rfl

theorem inclineDegAt_digits_degline {ds : List Char} (hne : ds ≠ [])
    (hd : ∀ c ∈ ds, isDig c = true) :
    inclineDegAt (ds ++ " degree incline".data) = some (decRat ds [], []) := by
  unfold inclineDegAt
  rw [numAt_digits_append hne hd (by decide) (by decide)
        (ne_dot_cons_of_head (by decide))]
  rfl

theorem inclineNumAt_head_digits {ds : List Char} (hne : ds ≠ [])
    (hd : ∀ c ∈ ds, isDig c = true) :
    inclineNumAt ('i' :: 'n' :: 'c' :: 'l' :: 'i' :: 'n' :: 'e' :: ' ' :: ds) =
      some (decRat ds [], []) := by
  show numAt ((' ' :: ds).dropWhile isPySpace) = some (decRat ds [], [])
  have h1 : (' ' :: ds).dropWhile isPySpace = ds := by
    show ds.dropWhile isPySpace = ds
    exact dropWhile_eq_self_of (fun c hc => isPySpace_of_isDig (hd c hc))
  rw [h1]
  exact numAt_digits_end hne hd

theorem durAt_none_on_degline {ds : List Char} (hd : ∀ c ∈ ds, isDig c = true) :
    ∀ t, t <:+ ds ++ " degree incline".data → durAt t = none := by
  intro t ht
  rcases suffix_append_cases ht with ⟨a2, ha, hne, rfl⟩ | hb
  · exact durAt_digits_degline hne (fun c hc => hd c (ha.subset hc))
  · exact searchV_none_suffix durAt _ (by decide) t hb

theorem mphAt_none_on_degline {ds : List Char} (hd : ∀ c ∈ ds, isDig c = true) :
    ∀ t, t <:+ ds ++ " degree incline".data → mphAt t = none := by
  intro t ht
  rcases suffix_append_cases ht with ⟨a2, ha, hne, rfl⟩ | hb
  · exact mphAt_digits_degline hne (fun c hc => hd c (ha.subset hc))
  · exact searchV_none_suffix mphAt _ (by decide) t hb

theorem milesAt_none_on_degline {ds : List Char} (hd : ∀ c ∈ ds, isDig c = true) :
    ∀ t, t <:+ ds ++ " degree incline".data → milesAt t = none := by
  intro t ht
  rcases suffix_append_cases ht with ⟨a2, ha, hne, rfl⟩ | hb
  · exact milesAt_digits_degline hne (fun c hc => hd c (ha.subset hc))
  · exact searchV_none_suffix milesAt _ (by decide) t hb

theorem durAt_none_on_incds {ds : List Char} (hd : ∀ c ∈ ds, isDig c = true) :
    ∀ t, t <:+ "incline ".data ++ ds → durAt t = none := by
  intro t ht
  rcases suffix_append_cases ht with ⟨a2, ha, hne, rfl⟩ | hb
  · cases a2 with
    | nil => exact absurd rfl hne
    | cons c r =>
      rw [List.cons_append]
      exact durAt_cons_nondigit
        ((by decide : ∀ x ∈ "incline ".data, isDig x = false) c
          (ha.subset (List.mem_cons_self c r)))
  · exact durAt_digits_end (fun c hc => hd c (hb.subset hc))

theorem mphAt_none_on_incds {ds : List Char} (hd : ∀ c ∈ ds, isDig c = true) :
    ∀ t, t <:+ "incline ".data ++ ds → mphAt t = none := by
  intro t ht
  rcases suffix_append_cases ht with ⟨a2, ha, hne, rfl⟩ | hb
  · cases a2 with
    | nil => exact absurd rfl hne
    | cons c r =>
      rw [List.cons_append]
      exact mphAt_cons_nondigit
        ((by decide : ∀ x ∈ "incline ".data, isDig x = false) c
          (ha.subset (List.mem_cons_self c r)))
  · exact mphAt_digits_end (fun c hc => hd c (hb.subset hc))

theorem milesAt_none_on_incds {ds : List Char} (hd : ∀ c ∈ ds, isDig c = true) :
    ∀ t, t <:+ "incline ".data ++ ds → milesAt t = none := by
  intro t ht
  rcases suffix_append_cases ht with ⟨a2, ha, hne, rfl⟩ | hb
  · cases a2 with
    | nil => exact absurd rfl hne
    | cons c r =>
      rw [List.cons_append]
      exact milesAt_cons_nondigit
        ((by decide : ∀ x ∈ "incline ".data, isDig x = false) c
          (ha.subset (List.mem_cons_self c r)))
  · exact milesAt_digits_end (fun c hc => hd c (hb.subset hc))

theorem inclineDegAt_none_on_incds {ds : List Char} (hd : ∀ c ∈ ds, isDig c = true) :
    ∀ t, t <:+ "incline ".data ++ ds → inclineDegAt t = none := by
  intro t ht
  rcases suffix_append_cases ht with ⟨a2, ha, hne, rfl⟩ | hb
  · cases a2 with
    | nil => exact absurd rfl hne
    | cons c r =>
      rw [List.cons_append]
      exact inclineDegAt_cons_nondigit
        ((by decide : ∀ x ∈ "incline ".data, isDig x = false) c
          (ha.subset (List.mem_cons_self c r)))
  · exact inclineDegAt_digits_end (fun c hc => hd c (hb.subset hc))

/-! ## Claim theorems -/

/-- C1: for the input `/log squat 315x5x3 rpe8 felt strong`, with any
reference instant and source, parsing succeeds with type `strength`,
exercise `squat`, exactly five sets of weight 315 and 3 reps and
`failed = false`, rpe 8, and notes `felt strong` (the fused
`<number>x<number>x<number>` token is read as weight × set-count ×
reps-per-set). -/
theorem C1_fused_triple_end_to_end : ∀ (ref : PDT) (source : String),
    ∃ ts d, parseWorkoutLog "/log squat 315x5x3 rpe8 felt strong" ref source =
      .ok ({ ts := ts, type := some "strength", exercise := some "squat",
             sets := some (List.replicate 5
               { weight := some 315, reps := 3, failed := false }),
             unit := some "lb", rpe := some 8, notes := some "felt strong",
             source := some source,
             raw := some "/log squat 315x5x3 rpe8 felt strong" }, d) :=
  fun ref _ =>
    ⟨⟨tsL (padL 4 ref.year) (padL 2 ref.month) (padL 2 ref.day) ref⟩,
     ⟨dateL (padL 4 ref.year) (padL 2 ref.month) (padL 2 ref.day)⟩, rfl⟩

/-- C2 counterexample: the dumbbell input `/log db bench 2x90` produces a
record whose `unit` field is present and equal to `lb` while its `sets`
sequence is empty, so no set carries a weight: the claimed equivalence
fails at this input. -/
theorem C2_counterexample :
    (parseWorkoutLog "/log db bench 2x90" refFeb16 "telegram").toOption.map
        (fun rd => (rd.1.unit, rd.1.sets)) =
      some (some "lb", some ([] : List StrengthSet)) ∧
    ¬ ((some "lb" : Option String) = some "lb" ↔
        ∃ s ∈ ([] : List StrengthSet), s.weight.isSome = true) :=
  ⟨rfl, by simp⟩

/-- C3 counterexample: `parseDate` on the ISO token `2026-01-30` with
reference 2026-02-16 returns the literal component strings, but the
calendar-date component of the result is the reference date 2026-02-16,
not the date 2026-01-30 denoted by the token. -/
theorem C3_counterexample :
    parseDate (some "2026-01-30") refFeb16 =
      .ok ((2026, 2, 16), "2026", "01", "30") ∧
    ((2026, 2, 16) : Nat × Nat × Nat) ≠ (2026, 1, 30) :=
  ⟨rfl, by decide⟩

/-- C4 counterexample: the piece `-5` is neither a failure marker nor a
non-negative integer, yet `parseRepList` succeeds on it (Python `int`
accepts a sign), returning a negative rep count instead of failing. -/
theorem C4_counterexample :
    parseRepList "-5" = .ok [{ reps := -5, failed := false }] ∧ (-5 : Int) < 0 :=
  ⟨rfl, by decide⟩

/-- C6: on `/log squat 225x5 rpe15` the parser succeeds and stores
`rpe = 15`, outside the 1..10 range that `models.py` declares for the
`rpe` field; the parser never validates the range. -/
theorem C6_rpe_range_not_enforced :
    (parseWorkoutLog "/log squat 225x5 rpe15" refFeb16 "telegram").toOption.map
        (fun rd => rd.1.rpe) = some (some 15) ∧ ¬ (15 ≤ 10) :=
  ⟨rfl, by decide⟩

/-- C7 counterexample: when the first three words all fail to resolve, the
`UnknownExercise` error names the three-word candidate
(`foo bar baz`), not a 1- or 2-word candidate as claimed. -/
theorem C7_counterexample :
    parseWorkoutLog "/log foo bar baz 5" refFeb16 "telegram" =
      .error "Unknown exercise: \"foo bar baz\". Could not normalize." := rfl

/-- C2 amended: for every record produced by the strength/bodyweight/machine
path, either `unit` is absent and no set carries a weight, or `unit = lb`
and every set carries a weight; hence the claimed equivalence "unit present
iff some set carries a weight" holds whenever the record has at least one
set, but fails in the dumbbell pair-notation branch, which can set the
weight (and hence `unit`) while producing zero sets. -/
theorem C2_amended : ∀ (exNorm rest isoTs : String) (r : Record),
    parseStrengthWorkout exNorm rest isoTs = .ok r →
    ((r.unit = none ∧ ∀ s ∈ r.sets.getD [], s.weight = none) ∨
      (r.unit = some "lb" ∧ ∀ s ∈ r.sets.getD [], s.weight.isSome = true)) ∧
    (r.sets.getD [] ≠ [] →
      (r.unit = some "lb" ↔ ∃ s ∈ r.sets.getD [], s.weight.isSome = true)) := by
  intro e rest ts r h
  obtain ⟨hw, -, -⟩ := parseStrengthWorkout_cases h
  refine ⟨hw, ?_⟩
  intro hne
  rcases hw with ⟨hu, hmem⟩ | ⟨hu, hmem⟩
  · rw [hu]
    constructor
    · intro hc
      exact Option.noConfusion hc
    · rintro ⟨s, hs, hw2⟩
      rw [hmem s hs] at hw2
      cases hw2
  · rw [hu]
    constructor
    · intro _
      obtain ⟨s, hs⟩ := List.exists_mem_of_ne_nil _ hne
      exact ⟨s, hs, hmem s hs⟩
    · intro _
      rfl

/-- C2 amended witness: on `squat 405 2,1,x` the equivalence holds with
three weighted sets. -/
theorem C2_amended_witness :
    (some "lb" : Option String) = some "lb" ↔
      ∃ s ∈ [({ weight := some 405, reps := 2 } : StrengthSet),
             { weight := some 405, reps := 1 },
             { weight := some 405, reps := 0, failed := true }],
        s.weight.isSome = true :=
  (C2_amended "squat" "405 2,1,x" "TS"
    { ts := "TS", type := some "strength", exercise := some "squat", unit := some "lb",
      sets := some [{ weight := some 405, reps := 2 }, { weight := some 405, reps := 1 },
                    { weight := some 405, reps := 0, failed := true }] }
    rfl).2 (by decide)

/-- C4 amended: the output of `parseRepList` has one entry per
comma-separated piece in input order; a trimmed, lowercased piece equal to
`x`, `f` or `fail` yields `{reps := 0, failed := true}`; any other piece
yields `{reps := v, failed := false}` when Python `int` accepts it — which
includes signed values such as `-5`, not only non-negative integers — and a
piece that is neither a marker nor `int`-parsable makes the call fail. -/
theorem C4_amended : ∀ s : String,
    (∀ l, parseRepList s = .ok l → List.Forall₂ pieceRel (splitCommaL s.data) l) ∧
    ((∃ p ∈ splitCommaL s.data, badPiece p) → ∃ e, parseRepList s = .error e) :=
  fun _ => ⟨fun l h => parseRepListGo_ok_forall₂ _ l h,
            fun hb => parseRepListGo_error_of_bad _ hb⟩

/-- C4 amended witness: the characterisation applied to `2,1,x`. -/
theorem C4_amended_witness :
    List.Forall₂ pieceRel [['2'], ['1'], ['x']]
      [⟨2, false⟩, ⟨1, false⟩, ⟨0, true⟩] :=
  (C4_amended "2,1,x").1 _ rfl

/-- C5: in every set of every record successfully produced by any parsing
path, `failed = true` implies `reps = 0` (cardio and note records carry no
sets; every strength-path constructor either stores `reps = 0` with the
failure flag or leaves the flag false). -/
theorem C5_failed_implies_zero_reps : ∀ (msg : String) (ref : PDT) (src : String)
    (r : Record) (d : String), parseWorkoutLog msg ref src = .ok (r, d) →
    ∀ s ∈ r.sets.getD [], s.failed = true → s.reps = 0 := by
  intro msg ref src r d h
  unfold parseWorkoutLog dispatchContent at h
  dsimp only at h
  split at h
  · exact Except.noConfusion h
  split at h
  · exact Except.noConfusion h
  split at h
  · -- note record
    simp only [Except.ok.injEq, Prod.mk.injEq] at h
    obtain ⟨h1, -⟩ := h
    subst h1
    intro s hs
    cases hs
  · split at h
    · exact Except.noConfusion h
    · split at h
      · exact Except.noConfusion h
      · split at h
        · -- a classified exercise type
          rename_i t ht
          split at h
          · -- cardio record
            simp only [Except.ok.injEq, Prod.mk.injEq] at h
            obtain ⟨h1, -⟩ := h
            subst h1
            intro s hs
            rw [update_sets, cardio_sets_none] at hs
            cases hs
          · split at h
            · -- strength/bodyweight/machine record
              split at h
              · rename_i r0 hps
                simp only [Except.ok.injEq, Prod.mk.injEq] at h
                obtain ⟨h1, -⟩ := h
                subst h1
                obtain ⟨-, hf, -⟩ := parseStrengthWorkout_cases hps
                intro s hs
                rw [update_sets] at hs
                exact hf s hs
              · exact Except.noConfusion h
            · exact Except.noConfusion h
        · exact Except.noConfusion h

/-- C5 witness: the failed set of `/log squat 405 2,1,x` has zero reps. -/
theorem C5_witness :
    parseWorkoutLog "/log squat 405 2,1,x" refFeb16 "telegram" =
      .ok ({ ts := "2026-02-16T10:30:00-08:00", type := some "strength",
             exercise := some "squat", unit := some "lb",
             sets := some [{ weight := some 405, reps := 2 },
                           { weight := some 405, reps := 1 },
                           { weight := some 405, reps := 0, failed := true }],
             source := some "telegram", raw := some "/log squat 405 2,1,x" },
           "2026-02-16") ∧
    ({ weight := some 405, reps := 0, failed := true } : StrengthSet).reps = 0 :=
  ⟨rfl, C5_failed_implies_zero_reps "/log squat 405 2,1,x" refFeb16 "telegram" _ _ rfl
    { weight := some 405, reps := 0, failed := true } (by decide) rfl⟩

/-- C7 amended: the dispatcher tries the first token, then the first two,
then the first three joined with single spaces, accepting the first phrase
that resolves (a resolving one-word phrase is never overridden); if none of
the tried phrases resolves, it fails with `UnknownExercise` naming the
candidate attempted last — the three-word candidate when at least three
tokens are present, otherwise the 2- or 1-word candidate. -/
theorem C7_amended :
    (∀ w0 tl c, normalizeExercise w0 = some c →
      resolveExercise (w0 :: tl) = .ok (c, 1)) ∧
    (∀ w0, normalizeExercise w0 = none →
      resolveExercise [w0] =
        .error ("Unknown exercise: \"" ++ w0 ++ "\". Could not normalize.")) ∧
    (∀ w0 w1 tl2 c, normalizeExercise w0 = none →
      normalizeExercise (w0 ++ " " ++ w1) = some c →
      resolveExercise (w0 :: w1 :: tl2) = .ok (c, 2)) ∧
    (∀ w0 w1, normalizeExercise w0 = none →
      normalizeExercise (w0 ++ " " ++ w1) = none →
      resolveExercise [w0, w1] =
        .error ("Unknown exercise: \"" ++ (w0 ++ " " ++ w1) ++ "\". Could not normalize.")) ∧
    (∀ w0 w1 w2 tl3 c, normalizeExercise w0 = none →
      normalizeExercise (w0 ++ " " ++ w1) = none →
      normalizeExercise ((w0 ++ " " ++ w1) ++ " " ++ w2) = some c →
      resolveExercise (w0 :: w1 :: w2 :: tl3) = .ok (c, 3)) ∧
    (∀ w0 w1 w2 tl3, normalizeExercise w0 = none →
      normalizeExercise (w0 ++ " " ++ w1) = none →
      normalizeExercise ((w0 ++ " " ++ w1) ++ " " ++ w2) = none →
      resolveExercise (w0 :: w1 :: w2 :: tl3) =
        .error ("Unknown exercise: \"" ++ ((w0 ++ " " ++ w1) ++ " " ++ w2) ++
          "\". Could not normalize.")) := by
  refine ⟨?_, ?_, ?_, ?_, ?_, ?_⟩
  · intro w0 tl c h
    simp [resolveExercise, h]
  · intro w0 h
    simp [resolveExercise, h]
  · intro w0 w1 tl2 c h0 h1
    simp [resolveExercise, h0, h1]
  · intro w0 w1 h0 h1
    simp [resolveExercise, h0, h1]
  · intro w0 w1 w2 tl3 c h0 h1 h2
    simp [resolveExercise, h0, h1, h2]
  · intro w0 w1 w2 tl3 h0 h1 h2
    simp [resolveExercise, h0, h1, h2]

/-- C7 amended witness: a one-word hit and a two-word miss. -/
theorem C7_amended_witness :
    resolveExercise ["squat", "315x5x3"] = .ok ("squat", 1) ∧
    resolveExercise ["foo", "bar"] =
      .error "Unknown exercise: \"foo bar\". Could not normalize." :=
  ⟨C7_amended.1 "squat" ["315x5x3"] "squat" rfl,
   C7_amended.2.2.2.1 "foo" "bar" rfl rfl⟩

/-- C3 amended: for every reference instant and every token matching the
fixed `YYYY-MM-DD` pattern, `parseDate` returns the token's literal digit
groups as the year, month and day strings, independent of the reference;
the calendar-date component of the result, however, is the reference
instant's Pacific date (which every caller ignores), not the date denoted
by the token. -/
theorem C3_amended : ∀ (ref : PDT) (tok y m d : String),
    isoFull tok.data = some (y, m, d) →
    parseDate (some tok) ref = .ok ((ref.year, ref.month, ref.day), y, m, d) := by
  intro ref tok y m d h
  obtain ⟨y1, y2, y3, y4, m1, m2, d1, d2, hl, hy, hm, hd,
    h1, h2, h3, h4, h5, h6, h7, h8⟩ := isoFull_inv h
  subst hy
  subst hm
  subst hd
  have hfix : ∀ c ∈ [y1, y2, y3, y4, '-', m1, m2, '-', d1, d2], pyToLower c = c := by
    intro c hc
    simp only [List.mem_cons, List.not_mem_nil, or_false] at hc
    rcases hc with rfl | rfl | rfl | rfl | rfl | rfl | rfl | rfl | rfl | rfl
    exacts [pyToLower_of_isDig h1, pyToLower_of_isDig h2, pyToLower_of_isDig h3,
      pyToLower_of_isDig h4, rfl, pyToLower_of_isDig h5, pyToLower_of_isDig h6,
      rfl, pyToLower_of_isDig h7, pyToLower_of_isDig h8]
  have hsp : ∀ c ∈ [y1, y2, y3, y4, '-', m1, m2, '-', d1, d2], isPySpace c = false := by
    intro c hc
    simp only [List.mem_cons, List.not_mem_nil, or_false] at hc
    rcases hc with rfl | rfl | rfl | rfl | rfl | rfl | rfl | rfl | rfl | rfl
    exacts [isPySpace_of_isDig h1, isPySpace_of_isDig h2, isPySpace_of_isDig h3,
      isPySpace_of_isDig h4, rfl, isPySpace_of_isDig h5, isPySpace_of_isDig h6,
      rfl, isPySpace_of_isDig h7, isPySpace_of_isDig h8]
  have hlow : stripL (pyLowerL tok.data) = [y1, y2, y3, y4, '-', m1, m2, '-', d1, d2] := by
    rw [hl, pyLowerL_eq_self hfix]
    exact stripL_eq_self hsp
  have hny : ¬([y1, y2, y3, y4, '-', m1, m2, '-', d1, d2] = "yesterday".data) := by
    rw [show "yesterday".data = ['y', 'e', 's', 't', 'e', 'r', 'd', 'a', 'y'] from rfl]
    simp
  have hnt : ¬([y1, y2, y3, y4, '-', m1, m2, '-', d1, d2] = "today".data) := by
    rw [show "today".data = ['t', 'o', 'd', 'a', 'y'] from rfl]
    simp
  have hiso : isoFull tok.data = some ((⟨[y1, y2, y3, y4]⟩ : String),
      (⟨[m1, m2]⟩ : String), (⟨[d1, d2]⟩ : String)) := h
  unfold parseDate
  dsimp only
  rw [show (some tok).getD "" = tok from rfl]
  rw [if_neg (by rw [hl]; simp), hlow, if_neg hny, if_neg hnt, hiso]

/-- C3 amended witness: the amended statement at the concrete token. -/
theorem C3_amended_witness :
    parseDate (some "2026-01-30") refFeb16 =
      .ok ((2026, 2, 16), "2026", "01", "30") :=
  C3_amended refFeb16 "2026-01-30" "2026" "01" "30" rfl

/-- C10: for every `/note` message whose content after the prefix is empty
or only whitespace, parsing does not fail: it returns a note record whose
notes field is the empty string, with no exercise, modality or sets fields;
a `/log` message with the same empty content fails with `NoExercise`. -/
theorem C10_empty_note_succeeds : ∀ (w : List Char) (ref : PDT) (src : String),
    stripL w = [] →
    (∃ ts d, parseWorkoutLog ⟨'/' :: 'n' :: 'o' :: 't' :: 'e' :: ' ' :: w⟩ ref src =
      .ok ({ ts := ts, type := some "note", notes := some "",
             source := some src,
             raw := some ⟨'/' :: 'n' :: 'o' :: 't' :: 'e' :: ' ' :: w⟩ }, d)) ∧
    parseWorkoutLog ⟨'/' :: 'l' :: 'o' :: 'g' :: ' ' :: w⟩ ref src =
      .error "No exercise specified" := by
  intro w ref src hw
  constructor
  · refine ⟨⟨tsL (padL 4 ref.year) (padL 2 ref.month) (padL 2 ref.day) ref⟩,
      ⟨dateL (padL 4 ref.year) (padL 2 ref.month) (padL 2 ref.day)⟩, ?_⟩
    have e1 : parseWorkoutLog ⟨'/' :: 'n' :: 'o' :: 't' :: 'e' :: ' ' :: w⟩ ref src =
        dispatchContent true (stripL w) ref src
          ⟨'/' :: 'n' :: 'o' :: 't' :: 'e' :: ' ' :: w⟩ := rfl
    rw [e1, hw]
    rfl
  · have e2 : parseWorkoutLog ⟨'/' :: 'l' :: 'o' :: 'g' :: ' ' :: w⟩ ref src =
        dispatchContent false (stripL w) ref src
          ⟨'/' :: 'l' :: 'o' :: 'g' :: ' ' :: w⟩ := rfl
    rw [e2, hw]
    rfl

/-- C10 witness: the inputs `/note ` and `/log `. -/
theorem C10_witness :
    parseWorkoutLog "/log " refFeb16 "telegram" = .error "No exercise specified" :=
  (C10_empty_note_succeeds [] refFeb16 "telegram" rfl).2

/-- C8: for every successfully parsed message, the record's timestamp is
the returned date string (assembled from the resolved date's zero-padded
components) followed by a time part computed from the reference instant's
Pacific time-of-day and numeric UTC offset alone, in the exact shape
`YYYY-MM-DDTHH:MM:SS±HH:MM`; since the time part depends only on the
reference, a date modifier changes only the date part. -/
theorem C8_timestamp_assembly : ∀ (msg : String) (ref : PDT) (src : String)
    (r : Record) (d : String), refValid ref →
    parseWorkoutLog msg ref src = .ok (r, d) →
    r.ts = d ++ timeStr ref ∧ tsShapeP r.ts := by
  intro msg ref src r d hv h
  unfold parseWorkoutLog dispatchContent at h
  dsimp only at h
  split at h
  · exact Except.noConfusion h
  split at h
  · exact Except.noConfusion h
  rename_i dq hdq
  have hshape := parseDate_shape hv hdq
  have hts : tsShapeP (⟨tsL dq.2.1.data dq.2.2.1.data dq.2.2.2.data ref⟩ : String) :=
    tsShapeP_tsL hshape hv
  have happ : (⟨dateL dq.2.1.data dq.2.2.1.data dq.2.2.2.data⟩ : String) ++ timeStr ref =
      ⟨tsL dq.2.1.data dq.2.2.1.data dq.2.2.2.data ref⟩ := rfl
  split at h
  · -- note record
    simp only [Except.ok.injEq, Prod.mk.injEq] at h
    obtain ⟨h1, h2⟩ := h
    subst h1
    subst h2
    exact ⟨happ.symm, hts⟩
  · split at h
    · exact Except.noConfusion h
    · split at h
      · exact Except.noConfusion h
      · split at h
        · rename_i t ht
          split at h
          · -- cardio record
            simp only [Except.ok.injEq, Prod.mk.injEq] at h
            obtain ⟨h1, h2⟩ := h
            subst h1
            subst h2
            rw [update_ts, cardio_ts]
            exact ⟨happ.symm, hts⟩
          · split at h
            · -- strength/bodyweight/machine record
              split at h
              · rename_i r0 hps
                simp only [Except.ok.injEq, Prod.mk.injEq] at h
                obtain ⟨h1, h2⟩ := h
                subst h1
                subst h2
                obtain ⟨-, -, hts0⟩ := parseStrengthWorkout_cases hps
                rw [update_ts, hts0]
                exact ⟨happ.symm, hts⟩
              · exact Except.noConfusion h
            · exact Except.noConfusion h
        · exact Except.noConfusion h

/-- C8 witness: the timestamp of `/log squat 315x5x3` at the test
reference instant. -/
theorem C8_witness :
    ("2026-02-16T10:30:00-08:00" : String) = "2026-02-16" ++ timeStr refFeb16 ∧
      tsShapeP "2026-02-16T10:30:00-08:00" :=
  C8_timestamp_assembly "/log squat 315x5x3" refFeb16 "telegram"
    { ts := "2026-02-16T10:30:00-08:00", type := some "strength", exercise := some "squat",
      unit := some "lb", sets := some (List.replicate 5 ⟨some 315, 3, false⟩),
      source := some "telegram", raw := some "/log squat 315x5x3" }
    "2026-02-16" (by unfold refValid; decide) rfl

/-- C9: (1) for the input `/log treadmill 10min 3.2mph incline15 steady
pace`, with any reference instant and source, parsing succeeds with a
cardio record carrying `duration_min = 10`, `speed_mph = 3.2`,
`incline_percent = 15` and `notes = "steady pace"`; (2) for every
non-empty digit string, the cardio parser recognizes the incline in
either order — the digits followed by ` degree incline`, or `incline `
followed by the digits — storing the denoted value as `incline_percent`
and removing the matched text entirely, so that the notes are empty. -/
theorem C9_cardio_incline_either_order :
    (∀ (ref : PDT) (source : String), ∃ ts d,
      parseWorkoutLog "/log treadmill 10min 3.2mph incline15 steady pace" ref source =
        .ok ({ ts := ts, type := some "cardio", modality := some "treadmill",
               duration_min := some 10, speed_mph := some (mkRat 16 5),
               incline_percent := some 15, notes := some "steady pace",
               source := some source,
               raw := some "/log treadmill 10min 3.2mph incline15 steady pace" }, d)) ∧
    (∀ (ds : List Char) (ts : String), ds ≠ [] → (∀ c ∈ ds, isDig c = true) →
      parseCardioWorkout "treadmill" ⟨ds ++ " degree incline".data⟩ ts =
        { ts := ts, type := some "cardio", modality := some "treadmill",
          incline_percent := some (decRat ds []) } ∧
      parseCardioWorkout "treadmill" ⟨"incline ".data ++ ds⟩ ts =
        { ts := ts, type := some "cardio", modality := some "treadmill",
          incline_percent := some (decRat ds []) }) := by
  constructor
  · intro ref source
    exact ⟨⟨tsL (padL 4 ref.year) (padL 2 ref.month) (padL 2 ref.day) ref⟩,
           ⟨dateL (padL 4 ref.year) (padL 2 ref.month) (padL 2 ref.day)⟩, rfl⟩
  · intro ds ts hne hd
    cases ds with
    | nil => exact absurd rfl hne
    | cons d0 ds' =>
      constructor
      · have hdeg : inclineDegAt ((d0 :: ds') ++ " degree incline".data) =
            some (decRat (d0 :: ds') [], []) :=
          inclineDegAt_digits_degline (List.cons_ne_nil d0 ds') hd
        have hsdur : searchV durAt ((d0 :: ds') ++ " degree incline".data) = none :=
          searchV_eq_none _ _ (durAt_none_on_degline hd)
        have hsmph : searchV mphAt ((d0 :: ds') ++ " degree incline".data) = none :=
          searchV_eq_none _ _ (mphAt_none_on_degline hd)
        have hsmiles : searchV milesAt ((d0 :: ds') ++ " degree incline".data) = none :=
          searchV_eq_none _ _ (milesAt_none_on_degline hd)
        have hsinc : searchV inclineAt ((d0 :: ds') ++ " degree incline".data) =
            some (decRat (d0 :: ds') []) :=
          searchV_some_head _ (inclineAt_of_deg hdeg)
        have hsubdur : subAll durAt [] ((d0 :: ds') ++ " degree incline".data) =
            (d0 :: ds') ++ " degree incline".data :=
          subAll_id _ _ (durAt_none_on_degline hd)
        have hsubmph : subAll mphAt [] ((d0 :: ds') ++ " degree incline".data) =
            (d0 :: ds') ++ " degree incline".data :=
          subAll_id _ _ (mphAt_none_on_degline hd)
        have hsubdeg : subAll inclineDegAt []
            ((d0 :: ds') ++ " degree incline".data) = [] :=
          subAll_full_match _ _ hdeg
        unfold parseCardioWorkout
        dsimp only
        rw [hsubdur, hsubmph, hsubdeg, hsdur, hsmph, hsmiles, hsinc]
        rfl
      · have hnum : inclineNumAt ("incline ".data ++ (d0 :: ds')) =
            some (decRat (d0 :: ds') [], []) :=
          inclineNumAt_head_digits (List.cons_ne_nil d0 ds') hd
        have hdegnone : inclineDegAt ("incline ".data ++ (d0 :: ds')) = none :=
          inclineDegAt_none_on_incds hd _ (List.suffix_refl _)
        have hsdur : searchV durAt ("incline ".data ++ (d0 :: ds')) = none :=
          searchV_eq_none _ _ (durAt_none_on_incds hd)
        have hsmph : searchV mphAt ("incline ".data ++ (d0 :: ds')) = none :=
          searchV_eq_none _ _ (mphAt_none_on_incds hd)
        have hsmiles : searchV milesAt ("incline ".data ++ (d0 :: ds')) = none :=
          searchV_eq_none _ _ (milesAt_none_on_incds hd)
        have hsinc : searchV inclineAt ("incline ".data ++ (d0 :: ds')) =
            some (decRat (d0 :: ds') []) :=
          searchV_some_head _ (inclineAt_of_num hdegnone hnum)
        have hsubdur : subAll durAt [] ("incline ".data ++ (d0 :: ds')) =
            "incline ".data ++ (d0 :: ds') :=
          subAll_id _ _ (durAt_none_on_incds hd)
        have hsubmph : subAll mphAt [] ("incline ".data ++ (d0 :: ds')) =
            "incline ".data ++ (d0 :: ds') :=
          subAll_id _ _ (mphAt_none_on_incds hd)
        have hsubdeg : subAll inclineDegAt [] ("incline ".data ++ (d0 :: ds')) =
            "incline ".data ++ (d0 :: ds') :=
          subAll_id _ _ (inclineDegAt_none_on_incds hd)
        have hsubnum : subAll inclineNumAt []
            ("incline ".data ++ (d0 :: ds')) = [] :=
          subAll_full_match _ _ hnum
        unfold parseCardioWorkout
        dsimp only
        rw [hsubdur, hsubmph, hsubdeg, hsubnum, hsdur, hsmph, hsmiles, hsinc]
        rfl

/-- C9 witness: both incline orders at the concrete digit string `15`. -/
theorem C9_witness :
    (['1', '5'] : List Char) ≠ [] ∧ (∀ c ∈ (['1', '5'] : List Char), isDig c = true) ∧
    parseCardioWorkout "treadmill" ⟨['1', '5'] ++ " degree incline".data⟩ "TS" =
      { ts := "TS", type := some "cardio", modality := some "treadmill",
        incline_percent := some (decRat ['1', '5'] []) } ∧
    parseCardioWorkout "treadmill" ⟨"incline ".data ++ ['1', '5']⟩ "TS" =
      { ts := "TS", type := some "cardio", modality := some "treadmill",
        incline_percent := some (decRat ['1', '5'] []) } :=
  ⟨by decide, by decide,
   C9_cardio_incline_either_order.2 ['1', '5'] "TS" (by decide) (by decide)⟩

end WL
